import Mathlib

/-!
# Verification of the ditherandetch image-processing engine

Shallow embedding of the image-processing core of the repository
(`src/lib/imageProcessing/{presets,dithering,adjustments,types}.ts`, plus the
alpha, masking and contour modules) and proofs about the claims of the
specification.

Modelling conventions, applied uniformly:

* A `Uint8ClampedArray` RGBA buffer is modelled pixel-wise as a total function
  `ℕ → Pixel` (flat pixel index `y * width + x`); the source always accesses
  the four bytes of a pixel together at aligned indices `idx*4 .. idx*4+3`.
  Indices at or beyond `width*height` have no counterpart in the source array;
  definitions leave them at the value dictated by the allocation
  (copy of the input, zero fill, or 255 fill).
* IEEE doubles and `Float32Array` cells are modelled as exact rationals `ℚ`.
  Transcendental library functions (`Math.pow`, `Math.sqrt`, `Math.atan2`,
  `Math.PI`) are taken as explicit parameters of the definitions that use them.
* A store to a `Uint8ClampedArray` cell clamps to [0,255] and rounds ties to
  even (`clampedByte`); a store to a `Uint8Array` cell truncates (`toUint8`).
  `Math.round` is `⌊q + 1/2⌋` (`roundJS`), `Math.floor` is `⌊·⌋`.
* The nested `for (y) for (x)` row-major loops of the source are embedded as
  `scanRowMajor`, a fold over rows and columns in source order.
-/

/-- One RGBA pixel: the four bytes `data[4i] .. data[4i+3]` of the source
buffer. Channel values of a well-formed buffer lie in [0,255]. -/
structure Pixel where
  r : ℕ
  g : ℕ
  b : ℕ
  a : ℕ
deriving DecidableEq, Repr

/-- `ProcessingImageData` of `types.ts`: `{ width, height, data }` with the
RGBA byte array viewed pixel-wise. -/
structure Img where
  width : ℕ
  height : ℕ
  pix : ℕ → Pixel

/-- A buffer is well formed when every channel of every real pixel is a byte. -/
def Img.Wf (img : Img) : Prop :=
  ∀ i < img.width * img.height,
    (img.pix i).r ≤ 255 ∧ (img.pix i).g ≤ 255 ∧
    (img.pix i).b ≤ 255 ∧ (img.pix i).a ≤ 255

instance (img : Img) : Decidable img.Wf := by
  unfold Img.Wf; infer_instance

/-- Pointwise array update (`arr[i] = v`). -/
def upd {α : Type} (f : ℕ → α) (i : ℕ) (v : α) : ℕ → α :=
  fun j => if j = i then v else f j

theorem upd_self {α : Type} (f : ℕ → α) (i : ℕ) (v : α) : upd f i v i = v := by
  simp [upd]

theorem upd_ne {α : Type} (f : ℕ → α) (i j : ℕ) (v : α) (h : j ≠ i) :
    upd f i v j = f j := by
  simp [upd, h]

/-- `Math.round`: round half toward positive infinity. -/
def roundJS (q : ℚ) : ℤ := ⌊q + 1 / 2⌋

/-- Round to nearest, ties to even (the WebIDL conversion used when a number
is stored into a `Uint8ClampedArray` cell). -/
def roundTiesEven (q : ℚ) : ℤ :=
  if q - ⌊q⌋ < 1 / 2 then ⌊q⌋
  else if 1 / 2 < q - ⌊q⌋ then ⌊q⌋ + 1
  else if 2 ∣ ⌊q⌋ then ⌊q⌋ else ⌊q⌋ + 1

/-- The `clamp` helper of `adjustments.ts` at its default bounds:
`Math.max(0, Math.min(255, value))`. -/
def clampQ (q : ℚ) : ℚ := max 0 (min 255 q)

/-- Conversion applied when a number is stored into a `Uint8ClampedArray`
cell: clamp to [0,255], then round ties-to-even. -/
def clampedByte (q : ℚ) : ℕ := (roundTiesEven (clampQ q)).toNat

/-- Conversion applied when a number in [0,255] is stored into a `Uint8Array`
cell: truncation toward zero. -/
def toUint8 (q : ℚ) : ℕ := (⌊clampQ q⌋).toNat

theorem roundTiesEven_natCast (n : ℕ) : roundTiesEven (n : ℚ) = n := by
  have h : ⌊(n : ℚ)⌋ = (n : ℤ) := by exact_mod_cast Int.floor_natCast n
  simp [roundTiesEven, h]

theorem clampQ_natCast (n : ℕ) (h : n ≤ 255) : clampQ (n : ℚ) = n := by
  have h1 : (n : ℚ) ≤ 255 := by exact_mod_cast h
  have h2 : (0 : ℚ) ≤ n := by positivity
  simp [clampQ, min_eq_right h1, max_eq_right h2]

theorem clampedByte_natCast (n : ℕ) (h : n ≤ 255) : clampedByte (n : ℚ) = n := by
  simp [clampedByte, clampQ_natCast n h, roundTiesEven_natCast]

/-- `getGrayOnWhite` of `alpha.ts`: alpha-aware luminance, compositing the
pixel on an implicit white background before weighting. -/
def getGrayOnWhite (p : Pixel) : ℚ :=
  if p.a = 0 then 255
  else if p.a < 255 then
    let alpha : ℚ := (p.a : ℚ) / 255
    let r : ℚ := (p.r : ℚ) * alpha + 255 * (1 - alpha)
    let g : ℚ := (p.g : ℚ) * alpha + 255 * (1 - alpha)
    let b : ℚ := (p.b : ℚ) * alpha + 255 * (1 - alpha)
    0.299 * r + 0.587 * g + 0.114 * b
  else 0.299 * (p.r : ℚ) + 0.587 * (p.g : ℚ) + 0.114 * (p.b : ℚ)

/-- `getGray` of `dithering.ts`; its body is textually identical to
`getGrayOnWhite`. -/
def getGray (p : Pixel) : ℚ :=
  if p.a = 0 then 255
  else if p.a < 255 then
    let alpha : ℚ := (p.a : ℚ) / 255
    let r : ℚ := (p.r : ℚ) * alpha + 255 * (1 - alpha)
    let g : ℚ := (p.g : ℚ) * alpha + 255 * (1 - alpha)
    let b : ℚ := (p.b : ℚ) * alpha + 255 * (1 - alpha)
    0.299 * r + 0.587 * g + 0.114 * b
  else 0.299 * (p.r : ℚ) + 0.587 * (p.g : ℚ) + 0.114 * (p.b : ℚ)

theorem getGray_eq_getGrayOnWhite : getGray = getGrayOnWhite := rfl

/-- The row-major nested loop `for (y = 0; y < h; y++) for (x = 0; x < w; x++)`
shared by all the per-pixel scans of the source, as a fold in source order. -/
def scanRowMajor {σ : Type} (w h : ℕ) (f : σ → ℕ → ℕ → σ) (init : σ) : σ :=
  (List.range h).foldl (fun s y => (List.range w).foldl (fun s x => f s y x) s) init

theorem foldl_congr_mem {α β : Type} {f g : β → α → β} :
    ∀ (l : List α), (∀ b a, a ∈ l → f b a = g b a) → ∀ b, l.foldl f b = l.foldl g b := by
  intro l
  induction l with
  | nil => intro _ _; rfl
  | cons a t ih =>
    intro h b
    simp only [List.foldl_cons]
    rw [h b a (List.mem_cons_self a t)]
    exact ih (fun b' a' ha' => h b' a' (List.mem_cons_of_mem a ha')) _

theorem scanRowMajor_congr {σ : Type} {w h : ℕ} {f g : σ → ℕ → ℕ → σ}
    (hfg : ∀ s y x, y < h → x < w → f s y x = g s y x) (init : σ) :
    scanRowMajor w h f init = scanRowMajor w h g init := by
  unfold scanRowMajor
  refine foldl_congr_mem _ ?_ init
  intro s y hy
  refine foldl_congr_mem _ ?_ s
  intro s' x hx
  exact hfg s' y x (List.mem_range.mp hy) (List.mem_range.mp hx)

theorem scanRowMajor_eq_flat {σ : Type} (w h : ℕ) (f : σ → ℕ → ℕ → σ) (init : σ) :
    scanRowMajor w h f init =
      (List.range (h * w)).foldl (fun s i => f s (i / w) (i % w)) init := by
  rcases Nat.eq_zero_or_pos w with hw | hw
  · subst hw
    simp [scanRowMajor]
  · induction h generalizing init with
    | zero => simp [scanRowMajor]
    | succ h ih =>
      have hrange : List.range ((h + 1) * w) =
          List.range (h * w) ++ (List.range w).map (h * w + ·) := by
        rw [Nat.succ_mul, List.range_add]
      have hsucc : scanRowMajor w (h + 1) f init =
          (List.range w).foldl (fun s x => f s h x) (scanRowMajor w h f init) := by
        unfold scanRowMajor
        rw [List.range_succ, List.foldl_append]
        simp
      rw [hsucc, ih, hrange, List.foldl_append, List.foldl_map]
      refine foldl_congr_mem _ ?_ _
      intro s x hx
      have hxw : x < w := List.mem_range.mp hx
      have hd : (h * w + x) / w = h := by
        rw [Nat.add_comm, Nat.add_mul_div_right _ _ hw, Nat.div_eq_of_lt hxw, Nat.zero_add]
      have hm : (h * w + x) % w = x := by
        rw [Nat.add_comm, Nat.add_mul_mod_self_right, Nat.mod_eq_of_lt hxw]
      rw [hd, hm]

theorem foldl_pres_of_step {σ : Type} (P : σ → Prop) (f : σ → ℕ → σ)
    (hstep : ∀ s i, P s → P (f s i)) :
    ∀ (l : List ℕ) (s : σ), P s → P (l.foldl f s) := by
  intro l
  induction l with
  | nil => intro s hs; exact hs
  | cons a t ih => intro s hs; exact ih _ (hstep s a hs)

theorem scanRowMajor_pres_of_step {σ : Type} (P : σ → Prop) (w h : ℕ)
    (f : σ → ℕ → ℕ → σ) (hstep : ∀ s y x, P s → P (f s y x)) (init : σ)
    (hinit : P init) : P (scanRowMajor w h f init) := by
  unfold scanRowMajor
  refine foldl_pres_of_step P _ ?_ _ _ hinit
  intro s y hs
  exact foldl_pres_of_step P _ (fun s' x hs' => hstep s' y x hs') _ s hs

theorem foldl_untouched {σ : Type} (proj : σ → ℕ → Pixel) (g : σ → ℕ → σ) (i : ℕ)
    (hpres : ∀ s j, j ≠ i → proj (g s j) i = proj s i) :
    ∀ (l : List ℕ), i ∉ l → ∀ s, proj (l.foldl g s) i = proj s i := by
  intro l
  induction l with
  | nil => intro _ s; rfl
  | cons a t ih =>
    intro hni s
    have hai : a ≠ i := fun hc => hni (hc ▸ List.mem_cons_self a t)
    rw [List.foldl_cons, ih (fun hc => hni (List.mem_cons_of_mem a hc)), hpres s a hai]

/-- If every fold step writes only at its own index, and the write at index `i`
always establishes `P`, then after folding over a list containing `i` the
projection at `i` satisfies `P`. -/
theorem foldl_write_shape {σ : Type} (proj : σ → ℕ → Pixel) (g : σ → ℕ → σ)
    (P : ℕ → Pixel → Prop) (i : ℕ)
    (hwrite : ∀ s, P i (proj (g s i) i))
    (hpres : ∀ s j, j ≠ i → proj (g s j) i = proj s i) :
    ∀ (l : List ℕ) (s : σ), i ∈ l → P i (proj (l.foldl g s) i) := by
  intro l
  induction l with
  | nil => intro s hs; cases hs
  | cons a t ih =>
    intro s hmem
    by_cases hit : i ∈ t
    · exact ih _ hit
    · have hai : a = i := by
        rcases List.mem_cons.mp hmem with h | h
        · exact h.symm
        · exact absurd h hit
      rw [List.foldl_cons, hai, foldl_untouched proj g i hpres t hit]
      exact hwrite s

/-! ## Tonal adjustment engine (`adjustments.ts`), value semantics

Each source function allocates `result = new Uint8ClampedArray(data)` and
overwrites the pixels its loop visits; pixels outside the loop range keep the
copied input value, which the pointwise embeddings reflect with an `if` guard.
The per-pixel arithmetic is shared with the write-discipline embedding below
through the `...Pixel`/`...Chan` helpers. -/

/-- Per-pixel map over the real pixels of a buffer (loop
`for (i = 0; i < data.length; i += 4)`). -/
def mapPixels (img : Img) (f : Pixel → Pixel) : Img :=
  ⟨img.width, img.height,
    fun i => if i < img.width * img.height then f (img.pix i) else img.pix i⟩

/-- Pixel body of `toGrayscale`. -/
def grayPixel (p : Pixel) : Pixel :=
  let gray := clampedByte (getGrayOnWhite p)
  ⟨gray, gray, gray, p.a⟩

/-- `toGrayscale(imageData)`. -/
def toGrayscale (img : Img) : Img := mapPixels img grayPixel

/-- Pixel body of `adjustBrightness`: `clamp(data[i] + amount)` stored through
the clamped-array conversion, alpha copied. -/
def brightPixel (amount : ℚ) (p : Pixel) : Pixel :=
  ⟨clampedByte (clampQ ((p.r : ℚ) + amount)),
   clampedByte (clampQ ((p.g : ℚ) + amount)),
   clampedByte (clampQ ((p.b : ℚ) + amount)), p.a⟩

/-- `adjustBrightness(imageData, amount)`. -/
def adjustBrightness (img : Img) (amount : ℚ) : Img := mapPixels img (brightPixel amount)

/-- The contrast factor `259*(amount+255) / (255*(259-amount))`. -/
def contrastFactor (amount : ℚ) : ℚ := 259 * (amount + 255) / (255 * (259 - amount))

/-- Channel body of `adjustContrast`:
`clamp(((v/255 - 0.5)*factor + 0.5) * 255)`. -/
def contrastChan (factor : ℚ) (v : ℕ) : ℕ :=
  clampedByte (clampQ ((((v : ℚ) / 255 - 0.5) * factor + 0.5) * 255))

/-- Pixel body of `adjustContrast`. -/
def contrastPixel (factor : ℚ) (p : Pixel) : Pixel :=
  ⟨contrastChan factor p.r, contrastChan factor p.g, contrastChan factor p.b, p.a⟩

/-- `adjustContrast(imageData, amount)`. -/
def adjustContrast (img : Img) (amount : ℚ) : Img :=
  mapPixels img (contrastPixel (contrastFactor amount))

/-- The 256-entry `Uint8Array` gamma lookup table:
`lookupTable[i] = clamp(pow(i/255, 1/gamma) * 255)`, stored with `Uint8Array`
truncation (`toUint8` includes the source's explicit `clamp`). An index outside
0..255 reads `undefined` in the source, which a clamped store turns into 0.
`powfn` is the `Math.pow` parameter. -/
def gammaLut (powfn : ℚ → ℚ → ℚ) (gamma : ℚ) : ℕ → ℕ := fun i =>
  if i < 256 then toUint8 (powfn ((i : ℚ) / 255) (1 / gamma) * 255) else 0

/-- Pixel body of `adjustGamma`: channels through the lookup table. -/
def gammaPixel (lut : ℕ → ℕ) (p : Pixel) : Pixel :=
  ⟨lut p.r, lut p.g, lut p.b, p.a⟩

/-- `adjustGamma(imageData, gamma)`. -/
def adjustGamma (powfn : ℚ → ℚ → ℚ) (img : Img) (gamma : ℚ) : Img :=
  mapPixels img (gammaPixel (gammaLut powfn gamma))

/-- Pixel body of `invert`: `255 - data[i]`. -/
def invertPixel (p : Pixel) : Pixel :=
  ⟨clampedByte (255 - (p.r : ℚ)), clampedByte (255 - (p.g : ℚ)),
   clampedByte (255 - (p.b : ℚ)), p.a⟩

/-- `invert(imageData)`. -/
def invert (img : Img) : Img := mapPixels img invertPixel

/-- `mirrorHorizontal(imageData)`: pixel `(y, x)` of the result holds pixel
`(y, w-1-x)` of the input (the source writes every destination exactly once). -/
def mirrorHorizontal (img : Img) : Img :=
  ⟨img.width, img.height, fun i =>
    if i < img.width * img.height then
      img.pix ((i / img.width) * img.width + (img.width - 1 - i % img.width))
    else img.pix i⟩

/-- Horizontal-pass pixel of the private `boxBlur`: average the in-bounds
row neighbours within `radius`, alpha copied from the input. -/
def boxBlurRowPixel (w radius : ℕ) (d : ℕ → Pixel) (y x : ℕ) : Pixel :=
  let idxs := ((List.range (2 * radius + 1)).map (fun k => (k : ℤ) - radius)).filterMap
    (fun dx =>
      let nx : ℤ := (x : ℤ) + dx
      if 0 ≤ nx ∧ nx < (w : ℤ) then some (y * w + nx.toNat) else none)
  let count : ℚ := idxs.length
  ⟨clampedByte ((idxs.map (fun j => ((d j).r : ℚ))).sum / count),
   clampedByte ((idxs.map (fun j => ((d j).g : ℚ))).sum / count),
   clampedByte ((idxs.map (fun j => ((d j).b : ℚ))).sum / count),
   (d (y * w + x)).a⟩

/-- Vertical-pass pixel of the private `boxBlur`. -/
def boxBlurColPixel (w h radius : ℕ) (d : ℕ → Pixel) (y x : ℕ) : Pixel :=
  let idxs := ((List.range (2 * radius + 1)).map (fun k => (k : ℤ) - radius)).filterMap
    (fun dy =>
      let ny : ℤ := (y : ℤ) + dy
      if 0 ≤ ny ∧ ny < (h : ℤ) then some (ny.toNat * w + x) else none)
  let count : ℚ := idxs.length
  ⟨clampedByte ((idxs.map (fun j => ((d j).r : ℚ))).sum / count),
   clampedByte ((idxs.map (fun j => ((d j).g : ℚ))).sum / count),
   clampedByte ((idxs.map (fun j => ((d j).b : ℚ))).sum / count),
   (d (y * w + x)).a⟩

/-- The private `boxBlur(imageData, radius)` of `adjustments.ts`: separable
horizontal pass into `temp`, vertical pass into `result`. -/
def boxBlur (img : Img) (radius : ℕ) : Img :=
  let w := img.width
  let h := img.height
  let temp : ℕ → Pixel := fun i =>
    if i < w * h then boxBlurRowPixel w radius img.pix (i / w) (i % w) else img.pix i
  ⟨w, h, fun i =>
    if i < w * h then boxBlurColPixel w h radius temp (i / w) (i % w) else temp i⟩

/-- Channel body of `unsharpMask`: sharpen when `|diff| >= threshold`. -/
def unsharpChan (amountFactor thr : ℚ) (orig blur : ℕ) : ℕ :=
  let diff : ℚ := (orig : ℚ) - (blur : ℚ)
  if thr ≤ |diff| then clampedByte (clampQ ((orig : ℚ) + diff * amountFactor)) else orig

/-- `unsharpMask(imageData, radius, amount, threshold)`. -/
def unsharpMask (img : Img) (radius : ℕ) (amount : ℚ) (thr : ℚ) : Img :=
  let blurred := boxBlur img radius
  let amountFactor := amount / 100
  ⟨img.width, img.height, fun i =>
    if i < img.width * img.height then
      ⟨unsharpChan amountFactor thr (img.pix i).r (blurred.pix i).r,
       unsharpChan amountFactor thr (img.pix i).g (blurred.pix i).g,
       unsharpChan amountFactor thr (img.pix i).b (blurred.pix i).b,
       (img.pix i).a⟩
    else img.pix i⟩

/-- Channel body of `edgeEnhance`: Laplacian response added back scaled by
`strength * 0.5`. -/
def edgeEnhanceChan (strength : ℚ) (w : ℕ) (d : ℕ → Pixel) (sel : Pixel → ℕ)
    (y x : ℕ) : ℕ :=
  let kernel : List (List ℚ) := [[0, -1, 0], [-1, 4, -1], [0, -1, 0]]
  let sum := (List.range 3).foldl (fun acc ky =>
    (List.range 3).foldl (fun acc kx =>
      acc + (sel (d ((y + ky - 1) * w + (x + kx - 1))) : ℚ) *
        ((kernel.getD ky []).getD kx 0)) acc) 0
  clampedByte (clampQ ((sel (d (y * w + x)) : ℚ) + sum * strength * 0.5))

/-- `edgeEnhance(imageData, strength)`: 1-pixel border left untouched. -/
def edgeEnhance (img : Img) (strength : ℚ) : Img :=
  let w := img.width
  let h := img.height
  ⟨w, h, fun i =>
    let y := i / w
    let x := i % w
    if i < w * h ∧ 1 ≤ y ∧ y + 1 < h ∧ 1 ≤ x ∧ x + 1 < w then
      ⟨edgeEnhanceChan strength w img.pix Pixel.r y x,
       edgeEnhanceChan strength w img.pix Pixel.g y x,
       edgeEnhanceChan strength w img.pix Pixel.b y x,
       (img.pix i).a⟩
    else img.pix i⟩

/-- Channel body of `denoise`: average the same-channel neighbours whose value
differs from the centre by less than the threshold. -/
def denoiseChan (radius : ℕ) (tv : ℚ) (w : ℕ) (d : ℕ → Pixel) (sel : Pixel → ℕ)
    (y x : ℕ) : ℕ :=
  let center : ℚ := sel (d (y * w + x))
  let vals : List ℚ := ((List.range (2 * radius + 1)).map (fun k1 =>
    (List.range (2 * radius + 1)).filterMap (fun k2 =>
      let v : ℚ := sel (d ((y + k1 - radius) * w + (x + k2 - radius)))
      if |v - center| < tv then some v else none))).flatten
  if 0 < vals.length then clampedByte (vals.sum / vals.length) else clampedByte center

/-- `denoise(imageData, strength)`: radius `max(1, floor(strength/20))`,
threshold `strength*2`, border of width `radius` untouched. -/
def denoise (img : Img) (strength : ℚ) : Img :=
  let w := img.width
  let h := img.height
  let radius : ℕ := (max 1 ⌊strength / 20⌋).toNat
  let tv := strength * 2
  ⟨w, h, fun i =>
    let y := i / w
    let x := i % w
    if i < w * h ∧ radius ≤ y ∧ y + radius < h ∧ radius ≤ x ∧ x + radius < w then
      ⟨denoiseChan radius tv w img.pix Pixel.r y x,
       denoiseChan radius tv w img.pix Pixel.g y x,
       denoiseChan radius tv w img.pix Pixel.b y x,
       (img.pix i).a⟩
    else img.pix i⟩

/-- Channel body of the levels stretch shared by `autoAdjust` and
`adjustLevels`: `clamp(((v - minLevel) / range) * 255)`. -/
def levelsChan (minLevel range : ℚ) (v : ℕ) : ℕ :=
  clampedByte (clampQ (((v : ℚ) - minLevel) / range * 255))

/-- Pixel body of the levels stretch. -/
def levelsPixel (minLevel range : ℚ) (p : Pixel) : Pixel :=
  ⟨levelsChan minLevel range p.r, levelsChan minLevel range p.g,
   levelsChan minLevel range p.b, p.a⟩

/-- The 256-bin luminance histogram of `autoAdjust`. -/
def histogram (img : Img) (g : ℕ) : ℕ :=
  ((List.range (img.width * img.height)).filter
    (fun i => roundJS (getGrayOnWhite (img.pix i)) = (g : ℤ))).length

/-- Black point of `autoAdjust`: first level whose cumulative count exceeds
the 0.5% clip amount (0 when the loop never breaks). -/
def autoMinLevel (img : Img) (clipAmount : ℕ) : ℕ :=
  (((List.range 256).find? (fun lv =>
    clipAmount < ((List.range (lv + 1)).map (histogram img)).sum)).getD 0)

/-- White point of `autoAdjust`: first level from the top whose cumulative
count exceeds the clip amount (255 when the loop never breaks). -/
def autoMaxLevel (img : Img) (clipAmount : ℕ) : ℕ :=
  ((((List.range 256).reverse).find? (fun lv =>
    clipAmount < (((List.range 256).drop lv).map (histogram img)).sum)).getD 255)

/-- `autoAdjust(imageData)`: histogram clip then levels stretch; when the
detected range is empty the copied buffer is returned unchanged. -/
def autoAdjust (img : Img) : Img :=
  let clipAmount : ℕ := (⌊(img.width * img.height : ℚ) * 0.005⌋).toNat
  let minLevel := autoMinLevel img clipAmount
  let maxLevel := autoMaxLevel img clipAmount
  let range : ℤ := (maxLevel : ℤ) - (minLevel : ℤ)
  if 0 < range then mapPixels img (levelsPixel minLevel (range : ℚ)) else
    ⟨img.width, img.height, img.pix⟩

/-- `adjustLevels(imageData, blackPoint, whitePoint)`. -/
def adjustLevels (img : Img) (blackPoint whitePoint : ℚ) : Img :=
  let bp : ℤ := max 0 (min 255 (roundJS blackPoint))
  let wp : ℤ := max 0 (min 255 (roundJS whitePoint))
  let minLevel := min bp wp
  let maxLevel := max bp wp
  let range : ℤ := max 1 (maxLevel - minLevel)
  if minLevel = 0 ∧ maxLevel = 255 then ⟨img.width, img.height, img.pix⟩
  else mapPixels img (levelsPixel (minLevel : ℚ) (range : ℚ))

/-- Pixel body of `threshold`: binarize on the red channel. -/
def thresholdPixel (t : ℤ) (p : Pixel) : Pixel :=
  let v : ℕ := if (p.r : ℤ) < t then 0 else 255
  ⟨v, v, v, p.a⟩

/-- `threshold(imageData, thresholdValue)`. -/
def threshold (img : Img) (tv : ℚ) : Img :=
  let t : ℤ := max 0 (min 255 (roundJS tv))
  mapPixels img (thresholdPixel t)

/-- Channel body of `colorCorrection`: lift shadows below 50, then compress
highlights above 230, then clamp. -/
def colorCorrectChan (shadowLift highlightCompress : ℚ) (v : ℕ) : ℕ :=
  let v1 : ℚ := if (v : ℚ) < 50 then (v : ℚ) + (50 - (v : ℚ)) * (shadowLift / 100) else v
  let v2 : ℚ := if 230 < v1 then 230 + (v1 - 230) * (1 - highlightCompress / 100) else v1
  clampedByte (clampQ v2)

/-- Pixel body of `colorCorrection`. -/
def colorCorrectPixel (shadowLift highlightCompress : ℚ) (p : Pixel) : Pixel :=
  ⟨colorCorrectChan shadowLift highlightCompress p.r,
   colorCorrectChan shadowLift highlightCompress p.g,
   colorCorrectChan shadowLift highlightCompress p.b, p.a⟩

/-- `colorCorrection(imageData, shadowLift, highlightCompress)`. -/
def colorCorrection (img : Img) (shadowLift highlightCompress : ℚ) : Img :=
  mapPixels img (colorCorrectPixel shadowLift highlightCompress)

/-- Gray value of one `sketchEffect` output pixel: colour-dodge of the
grayscale base against the blurred inverted copy. -/
def sketchValue (base : ℕ) (blend : ℕ) : ℚ :=
  if blend = 255 then 255 else clampQ (((base : ℚ) * 255) / (255 - (blend : ℚ)))

/-- `sketchEffect(imageData)`: grayscale, invert, box blur radius 5, colour
dodge. -/
def sketchEffect (img : Img) : Img :=
  let gray := toGrayscale img
  let inverted := invert gray
  let blurred := boxBlur inverted 5
  ⟨img.width, img.height, fun i =>
    if i < img.width * img.height then
      let value := sketchValue (gray.pix i).r (blurred.pix i).r
      ⟨clampedByte value, clampedByte value, clampedByte value, (img.pix i).a⟩
    else img.pix i⟩

/-! ## Dithering engine (`dithering.ts`)

All seven error-diffusion variants share the same scan skeleton: a
`Float32Array` error accumulator seeded with the alpha-aware gray of every
pixel, a row-major scan quantizing at 128, writing the binary pixel plus the
copied alpha (`setPixel` + the alpha store), and a per-algorithm error
distribution. The skeleton is `diffuseStep`/`diffuseDither`; each algorithm
supplies its literal distribution code. -/

/-- Error seed: `errors[i] = getGray(data, i*4)` for every real pixel
(`Float32Array` cells start at 0). -/
def errorsInit (img : Img) : ℕ → ℚ := fun i =>
  if i < img.width * img.height then getGray (img.pix i) else 0

/-- One pixel of an error-diffusion scan: quantize the accumulated value at
128, write the binary pixel with copied alpha, distribute the quantization
error. State is `(errors, result)`. -/
def diffuseStep (data : ℕ → Pixel) (w : ℕ)
    (distribute : ℕ → ℕ → ℚ → (ℕ → ℚ) → ℕ → ℚ)
    (s : (ℕ → ℚ) × (ℕ → Pixel)) (y x : ℕ) : (ℕ → ℚ) × (ℕ → Pixel) :=
  let idx := y * w + x
  let oldPixel := s.1 idx
  let newPixel : ℕ := if oldPixel < 128 then 0 else 255
  let quantError : ℚ := oldPixel - (newPixel : ℚ)
  (distribute y x quantError s.1,
   upd s.2 idx ⟨newPixel, newPixel, newPixel, (data idx).a⟩)

/-- Shared outer structure of the error-diffusion algorithms. -/
def diffuseDither (img : Img)
    (distribute : ℕ → ℕ → ℚ → (ℕ → ℚ) → ℕ → ℚ) : Img :=
  let fin := scanRowMajor img.width img.height
    (diffuseStep img.pix img.width distribute) (errorsInit img, img.pix)
  ⟨img.width, img.height, fin.2⟩

/-- Error distribution of `floydSteinberg`, with the source's flat-index
targets `idx+1`, `idx+width-1`, `idx+width`, `idx+width+1` and guards. -/
def fsDistribute (w h y x : ℕ) (qe : ℚ) (e : ℕ → ℚ) : ℕ → ℚ :=
  let idx := y * w + x
  let e1 := if x + 1 < w then upd e (idx + 1) (e (idx + 1) + qe * 7 / 16) else e
  if y + 1 < h then
    let e2 := if 0 < x then upd e1 (idx + w - 1) (e1 (idx + w - 1) + qe * 3 / 16) else e1
    let e3 := upd e2 (idx + w) (e2 (idx + w) + qe * 5 / 16)
    if x + 1 < w then upd e3 (idx + w + 1) (e3 (idx + w + 1) + qe * 1 / 16) else e3
  else e1

/-- `floydSteinberg(imageData)`. -/
def floydSteinberg (img : Img) : Img :=
  diffuseDither img (fsDistribute img.width img.height)

/-- Kernel-driven error distribution shared by `jarvisJudiceNinke`, `stucki`,
`sierra` and `sierraTwoRow`: the `for (ky) for (kx)` loop with target
`(x + kx - 2, y + ky)`, bounds checks, and the not-yet-visited condition
`ky > 0 || kx > 2`. -/
def kernelDistribute (kernel : List (List ℚ)) (divisor : ℚ) (rows w h : ℕ)
    (y x : ℕ) (qe : ℚ) (e : ℕ → ℚ) : ℕ → ℚ :=
  (List.range rows).foldl (fun e (ky : ℕ) =>
    (List.range 5).foldl (fun e (kx : ℕ) =>
      let nx : ℤ := (x : ℤ) + (kx : ℤ) - 2
      let ny := y + ky
      if 0 ≤ nx ∧ nx < (w : ℤ) ∧ ny < h ∧ (0 < ky ∨ 2 < kx) then
        let kVal := (kernel.getD ky []).getD kx 0
        upd e (ny * w + nx.toNat) (e (ny * w + nx.toNat) + qe * kVal / divisor)
      else e) e) e

/-- `jarvisJudiceNinke(imageData)`. -/
def jarvisJudiceNinke (img : Img) : Img :=
  diffuseDither img
    (kernelDistribute [[0, 0, 0, 7, 5], [3, 5, 7, 5, 3], [1, 3, 5, 3, 1]] 48 3
      img.width img.height)

/-- `stucki(imageData)`. -/
def stucki (img : Img) : Img :=
  diffuseDither img
    (kernelDistribute [[0, 0, 0, 8, 4], [2, 4, 8, 4, 2], [1, 2, 4, 2, 1]] 42 3
      img.width img.height)

/-- Error distribution of `atkinson` (six targets, each 1/8). -/
def atkinsonDistribute (w h y x : ℕ) (qe : ℚ) (e : ℕ → ℚ) : ℕ → ℚ :=
  let idx := y * w + x
  let e1 := if x + 1 < w then upd e (idx + 1) (e (idx + 1) + qe * 1 / 8) else e
  let e2 := if x + 2 < w then upd e1 (idx + 2) (e1 (idx + 2) + qe * 1 / 8) else e1
  let e5 :=
    if y + 1 < h then
      let e3 := if 0 < x then upd e2 (idx + w - 1) (e2 (idx + w - 1) + qe * 1 / 8) else e2
      let e4 := upd e3 (idx + w) (e3 (idx + w) + qe * 1 / 8)
      if x + 1 < w then upd e4 (idx + w + 1) (e4 (idx + w + 1) + qe * 1 / 8) else e4
    else e2
  if y + 2 < h then upd e5 (idx + w * 2) (e5 (idx + w * 2) + qe * 1 / 8) else e5

/-- `atkinson(imageData)`. -/
def atkinson (img : Img) : Img :=
  diffuseDither img (atkinsonDistribute img.width img.height)

/-- `sierra(imageData)` (Sierra-3). -/
def sierra (img : Img) : Img :=
  diffuseDither img
    (kernelDistribute [[0, 0, 0, 5, 3], [2, 4, 5, 4, 2], [0, 2, 3, 2, 0]] 32 3
      img.width img.height)

/-- `sierraTwoRow(imageData)`. -/
def sierraTwoRow (img : Img) : Img :=
  diffuseDither img
    (kernelDistribute [[0, 0, 0, 4, 3], [1, 2, 3, 2, 1]] 16 2
      img.width img.height)

/-- Error distribution of `burkes`: the `distribute(dx, dy, factor)` closure
applied to its seven literal calls, divisor 32. -/
def burkesDistribute (w h y x : ℕ) (qe : ℚ) (e : ℕ → ℚ) : ℕ → ℚ :=
  let dist := fun (e : ℕ → ℚ) (dx : ℤ) (dy : ℕ) (factor : ℚ) =>
    let nx : ℤ := (x : ℤ) + dx
    let ny : ℕ := y + dy
    if 0 ≤ nx ∧ nx < (w : ℤ) ∧ ny < h then
      upd e (ny * w + nx.toNat) (e (ny * w + nx.toNat) + qe * factor / 32)
    else e
  dist (dist (dist (dist (dist (dist (dist e 1 0 8) 2 0 4) (-2) 1 2) (-1) 1 4) 0 1 8) 1 1 4) 2 1 2

/-- `burkes(imageData)`. -/
def burkes (img : Img) : Img :=
  diffuseDither img (burkesDistribute img.width img.height)

/-- The 8×8 Bayer threshold matrix of `bayerOrdered`. -/
def bayerMatrix8 : List (List ℚ) :=
  [[0, 128, 32, 160, 8, 136, 40, 168],
   [192, 64, 224, 96, 200, 72, 232, 104],
   [48, 176, 16, 144, 56, 184, 24, 152],
   [240, 112, 208, 80, 248, 120, 216, 88],
   [12, 140, 44, 172, 4, 132, 36, 164],
   [204, 76, 236, 108, 196, 68, 228, 100],
   [60, 188, 28, 156, 52, 180, 20, 148],
   [252, 124, 220, 92, 244, 116, 212, 84]]

/-- The 4×4 Bayer threshold matrix of `bayerOrdered4x4`. -/
def bayerMatrix4 : List (List ℚ) :=
  [[0, 136, 34, 170],
   [204, 68, 238, 102],
   [51, 187, 17, 153],
   [255, 119, 221, 85]]

/-- One pixel of an ordered-dithering scan: threshold the gray value against
the tiled matrix entry (`gray > threshold ? 255 : 0`), copy alpha. -/
def bayerStep (matrix : List (List ℚ)) (size : ℕ) (data : ℕ → Pixel) (w : ℕ)
    (res : ℕ → Pixel) (y x : ℕ) : ℕ → Pixel :=
  let idx := y * w + x
  let gray := getGray (data idx)
  let t := (matrix.getD (y % size) []).getD (x % size) 0
  let newPixel : ℕ := if t < gray then 255 else 0
  upd res idx ⟨newPixel, newPixel, newPixel, (data idx).a⟩

/-- `bayerOrdered(imageData)` (8×8 matrix). -/
def bayerOrdered (img : Img) : Img :=
  ⟨img.width, img.height,
    scanRowMajor img.width img.height
      (bayerStep bayerMatrix8 8 img.pix img.width) img.pix⟩

/-- `bayerOrdered4x4(imageData)`. -/
def bayerOrdered4x4 (img : Img) : Img :=
  ⟨img.width, img.height,
    scanRowMajor img.width img.height
      (bayerStep bayerMatrix4 4 img.pix img.width) img.pix⟩

/-- The keys of the `ditheringAlgorithms` export (`DitheringAlgorithm =
keyof typeof ditheringAlgorithms`). -/
inductive DitheringAlgorithm where
  | floydSteinberg
  | jarvisJudiceNinke
  | stucki
  | atkinson
  | sierra
  | sierraTwoRow
  | burkes
  | bayerOrdered
  | bayerOrdered4x4
deriving DecidableEq, Repr

/-- The `ditheringAlgorithms` dispatch table. -/
def ditheringAlgorithms : DitheringAlgorithm → Img → Img
  | .floydSteinberg => floydSteinberg
  | .jarvisJudiceNinke => jarvisJudiceNinke
  | .stucki => stucki
  | .atkinson => atkinson
  | .sierra => sierra
  | .sierraTwoRow => sierraTwoRow
  | .burkes => burkes
  | .bayerOrdered => bayerOrdered
  | .bayerOrdered4x4 => bayerOrdered4x4

/-! ## Spec-side Floyd–Steinberg (claim C1)

`fsSpecStep`/`floydSteinbergSpec` formalize the specification's words
directly: row-major scan over an accumulator seeded with alpha-aware gray,
quantization at 128, and distribution of `old - new` to the coordinate
neighbours right `(x+1, y)` with weight 7/16, below-left `(x-1, y+1)` with
3/16, below `(x, y+1)` with 5/16 and below-right `(x+1, y+1)` with 1/16,
each skipped when the coordinate leaves the image. -/

/-- Spec-side error distribution, addressed by neighbour coordinates. -/
def fsSpecDistribute (w h y x : ℕ) (qe : ℚ) (e : ℕ → ℚ) : ℕ → ℚ :=
  let e1 := if x + 1 < w then
    upd e (y * w + (x + 1)) (e (y * w + (x + 1)) + qe * (7 / 16)) else e
  let e2 := if 0 < x ∧ y + 1 < h then
    upd e1 ((y + 1) * w + (x - 1)) (e1 ((y + 1) * w + (x - 1)) + qe * (3 / 16)) else e1
  let e3 := if y + 1 < h then
    upd e2 ((y + 1) * w + x) (e2 ((y + 1) * w + x) + qe * (5 / 16)) else e2
  if x + 1 < w ∧ y + 1 < h then
    upd e3 ((y + 1) * w + (x + 1)) (e3 ((y + 1) * w + (x + 1)) + qe * (1 / 16)) else e3

/-- Spec-side scan step: quantize below 128 to 0 and otherwise to 255, write
the binary pixel keeping the input alpha, distribute the error. -/
def fsSpecStep (data : ℕ → Pixel) (w h : ℕ)
    (s : (ℕ → ℚ) × (ℕ → Pixel)) (y x : ℕ) : (ℕ → ℚ) × (ℕ → Pixel) :=
  let oldVal := s.1 (y * w + x)
  let q : ℕ := if oldVal < 128 then 0 else 255
  (fsSpecDistribute w h y x (oldVal - (q : ℚ)) s.1,
   upd s.2 (y * w + x) ⟨q, q, q, (data (y * w + x)).a⟩)

/-- The specification's description of Floyd–Steinberg as a whole. -/
def floydSteinbergSpec (img : Img) : Img :=
  let seed : ℕ → ℚ := fun i =>
    if i < img.width * img.height then getGrayOnWhite (img.pix i) else 0
  let fin := scanRowMajor img.width img.height
    (fsSpecStep img.pix img.width img.height) (seed, img.pix)
  ⟨img.width, img.height, fin.2⟩

/-! ## Preset composer (`presets.ts`)

`PresetConfig` keeps the fields `applyPreset` reads; the display-only strings
(`name`, `description`, `tip`, `laserTypes`, `materials`) are omitted. Optional
numeric fields are `Option ℚ`; the two boolean flags default to `false` when
absent, matching JavaScript truthiness of `undefined`. -/

structure PresetAdjustments where
  brightness : Option ℚ := none
  contrast : Option ℚ := none
  gamma : Option ℚ := none
  sharpenAmount : Option ℚ := none
  sharpenRadius : Option ℕ := none
  denoise : Option ℚ := none
  autoAdjust : Bool := false
  colorCorrection : Bool := false
  shadowLift : Option ℚ := none
  highlightCompress : Option ℚ := none
  edgeEnhance : Option ℚ := none

structure PresetConfig where
  id : String
  adjustments : PresetAdjustments
  ditheringAlgorithm : DitheringAlgorithm

/-- The `presets` record, as a lookup from preset id to configuration. -/
def presets (name : String) : Option PresetConfig :=
  if name = "photoRealism" then some
    { id := "photoRealism",
      adjustments :=
        { contrast := some 15, gamma := some 1.1, sharpenAmount := some 80,
          sharpenRadius := some 1, autoAdjust := true },
      ditheringAlgorithm := .jarvisJudiceNinke }
  else if name = "trueTone" then some
    { id := "trueTone",
      adjustments :=
        { autoAdjust := true, sharpenAmount := some 40, gamma := some 1.0 },
      ditheringAlgorithm := .jarvisJudiceNinke }
  else if name = "deepBurn" then some
    { id := "deepBurn",
      adjustments :=
        { contrast := some 25, colorCorrection := true, shadowLift := some 30,
          highlightCompress := some 15, sharpenAmount := some 100 },
      ditheringAlgorithm := .stucki }
  else if name = "softDetail" then some
    { id := "softDetail",
      adjustments :=
        { gamma := some 1.05, sharpenAmount := some 60, sharpenRadius := some 1,
          edgeEnhance := some 0.5 },
      ditheringAlgorithm := .sierra }
  else if name = "stoneSlate" then some
    { id := "stoneSlate",
      adjustments :=
        { denoise := some 25, edgeEnhance := some 1.2, sharpenAmount := some 70,
          contrast := some 20 },
      ditheringAlgorithm := .stucki }
  else if name = "glassAcrylic" then some
    { id := "glassAcrylic",
      adjustments :=
        { colorCorrection := true, shadowLift := some 40, highlightCompress := some 20,
          contrast := some 35, sharpenAmount := some 120 },
      ditheringAlgorithm := .stucki }
  else if name = "forgiving" then some
    { id := "forgiving",
      adjustments :=
        { sharpenAmount := some 50, gamma := some 1.05, contrast := some 10 },
      ditheringAlgorithm := .sierra }
  else if name = "edgePop" then some
    { id := "edgePop",
      adjustments :=
        { colorCorrection := true, shadowLift := some 15, edgeEnhance := some 0.8,
          sharpenAmount := some 90 },
      ditheringAlgorithm := .burkes }
  else if name = "highContrast" then some
    { id := "highContrast",
      adjustments :=
        { contrast := some 40, brightness := some 10, sharpenAmount := some 150,
          sharpenRadius := some 2 },
      ditheringAlgorithm := .floydSteinberg }
  else if name = "pencilSketch" then some
    { id := "pencilSketch",
      adjustments := {},
      ditheringAlgorithm := .atkinson }
  else none

/-- The ten catalogued preset ids. -/
def presetIds : List String :=
  ["photoRealism", "trueTone", "deepBurn", "softDetail", "stoneSlate",
   "glassAcrylic", "forgiving", "edgePop", "highContrast", "pencilSketch"]

/-- `applyPreset(imageData, presetName)`; `throw` is modelled as `none`.
Conditions like `adj.gamma && adj.gamma !== 1.0` follow JavaScript truthiness
(an absent field and the value 0 are both falsy). `powfn` is `Math.pow` for
the gamma lookup table. -/
def applyPreset (powfn : ℚ → ℚ → ℚ) (imageData : Img) (presetName : String) :
    Option Img :=
  match presets presetName with
  | none => none
  | some preset =>
    let result : Img := ⟨imageData.width, imageData.height, imageData.pix⟩
    let adj := preset.adjustments
    let result := toGrayscale result
    if presetName = "pencilSketch" then
      some (ditheringAlgorithms preset.ditheringAlgorithm (sketchEffect result))
    else
      let result := if adj.autoAdjust then autoAdjust result else result
      let result := if adj.colorCorrection then
          colorCorrection result (adj.shadowLift.getD 20) (adj.highlightCompress.getD 10)
        else result
      let result := match adj.denoise with
        | some d => if 0 < d then denoise result d else result
        | none => result
      let result := match adj.gamma with
        | some g => if g ≠ 0 ∧ g ≠ 1 then adjustGamma powfn result g else result
        | none => result
      let result := match adj.brightness with
        | some b => if b ≠ 0 then adjustBrightness result b else result
        | none => result
      let result := match adj.contrast with
        | some c => if c ≠ 0 then adjustContrast result c else result
        | none => result
      let result := match adj.edgeEnhance with
        | some s => if 0 < s then edgeEnhance result s else result
        | none => result
      let result := match adj.sharpenAmount with
        | some s => if 0 < s then unsharpMask result (adj.sharpenRadius.getD 1) s 0
          else result
        | none => result
      some (ditheringAlgorithms preset.ditheringAlgorithm result)

/-! ## Contour/edge engine (`contour.ts`) -/

/-- The binarization `binary[i] = gray < threshold ? 1 : 0` shared by
`extractContours` (a `Uint8Array` of size `width*height`). -/
def contourBinary (img : Img) (t : ℚ) : ℕ → ℕ := fun i =>
  if i < img.width * img.height then
    (if getGrayOnWhite (img.pix i) < t then 1 else 0)
  else 0

/-- `extractContours(imageData, threshold)`: white-filled output; an interior
pixel is painted black with alpha 255 exactly when it is on (`binary = 1`) and
one of its 4-connected neighbours (`idx±1`, `idx±width`) is off. -/
def extractContours (img : Img) (t : ℚ) : Img :=
  let w := img.width
  let h := img.height
  let binary := contourBinary img t
  ⟨w, h, fun i =>
    let y := i / w
    let x := i % w
    if i < w * h ∧ 1 ≤ y ∧ y + 1 < h ∧ 1 ≤ x ∧ x + 1 < w ∧ binary i = 1 ∧
        (binary (i - 1) = 0 ∨ binary (i + 1) = 0 ∨
         binary (i - w) = 0 ∨ binary (i + w) = 0)
    then ⟨0, 0, 0, 255⟩ else ⟨255, 255, 255, 255⟩⟩

/-- Grayscale stage of `cannyEdgeDetection` (`Float32Array`, all pixels). -/
def cannyGray (img : Img) : ℕ → ℚ := fun i =>
  if i < img.width * img.height then getGrayOnWhite (img.pix i) else 0

/-- Gaussian 3×3 blur stage (kernel `[1,2,1,2,4,2,1,2,1] / 16`); the loop
fills interior pixels only, the border keeps the `Float32Array` zero fill. -/
def cannyBlurred (w h : ℕ) (gray : ℕ → ℚ) : ℕ → ℚ := fun i =>
  let y := i / w
  let x := i % w
  if 1 ≤ y ∧ y + 1 < h ∧ 1 ≤ x ∧ x + 1 < w then
    (gray ((y - 1) * w + (x - 1)) * 1 + gray ((y - 1) * w + x) * 2 +
     gray ((y - 1) * w + (x + 1)) * 1 +
     gray (y * w + (x - 1)) * 2 + gray (y * w + x) * 4 + gray (y * w + (x + 1)) * 2 +
     gray ((y + 1) * w + (x - 1)) * 1 + gray ((y + 1) * w + x) * 2 +
     gray ((y + 1) * w + (x + 1)) * 1) / 16
  else 0

/-- Sobel X response at an interior pixel. -/
def sobelGX (w : ℕ) (b : ℕ → ℚ) (y x : ℕ) : ℚ :=
  -b ((y - 1) * w + (x - 1)) + b ((y - 1) * w + (x + 1)) +
    -2 * b (y * w + (x - 1)) + 2 * b (y * w + (x + 1)) +
    -b ((y + 1) * w + (x - 1)) + b ((y + 1) * w + (x + 1))

/-- Sobel Y response at an interior pixel. -/
def sobelGY (w : ℕ) (b : ℕ → ℚ) (y x : ℕ) : ℚ :=
  -b ((y - 1) * w + (x - 1)) - 2 * b ((y - 1) * w + x) - b ((y - 1) * w + (x + 1)) +
    b ((y + 1) * w + (x - 1)) + 2 * b ((y + 1) * w + x) + b ((y + 1) * w + (x + 1))

/-- Gradient magnitude stage, `sqrt(gx²+gy²)`; `sqrtfn` is `Math.sqrt`. -/
def cannyMagnitude (sqrtfn : ℚ → ℚ) (w h : ℕ) (b : ℕ → ℚ) : ℕ → ℚ := fun i =>
  let y := i / w
  let x := i % w
  if 1 ≤ y ∧ y + 1 < h ∧ 1 ≤ x ∧ x + 1 < w then
    sqrtfn (sobelGX w b y x * sobelGX w b y x + sobelGY w b y x * sobelGY w b y x)
  else 0

/-- Gradient direction stage, `atan2(gy, gx)`; `atan2fn` is `Math.atan2`. -/
def cannyDirection (atan2fn : ℚ → ℚ → ℚ) (w h : ℕ) (b : ℕ → ℚ) : ℕ → ℚ := fun i =>
  let y := i / w
  let x := i % w
  if 1 ≤ y ∧ y + 1 < h ∧ 1 ≤ x ∧ x + 1 < w then
    atan2fn (sobelGY w b y x) (sobelGX w b y x)
  else 0

/-- Non-maximum suppression stage: keep the magnitude when it is at least both
neighbours along the 45°-binned gradient direction; `piQ` is `Math.PI`. -/
def cannySuppressed (piQ : ℚ) (w h : ℕ) (mag dir : ℕ → ℚ) : ℕ → ℚ := fun i =>
  let y := i / w
  let x := i % w
  if 1 ≤ y ∧ y + 1 < h ∧ 1 ≤ x ∧ x + 1 < w then
    let absAngle := |dir i|
    let nbrs : ℚ × ℚ :=
      if absAngle < piQ / 8 ∨ 7 * piQ / 8 < absAngle then (mag (i - 1), mag (i + 1))
      else if absAngle < 3 * piQ / 8 then
        (mag ((y - 1) * w + (x + 1)), mag ((y + 1) * w + (x - 1)))
      else if absAngle < 5 * piQ / 8 then (mag ((y - 1) * w + x), mag ((y + 1) * w + x))
      else (mag ((y - 1) * w + (x - 1)), mag ((y + 1) * w + (x + 1)))
    if nbrs.1 ≤ mag i ∧ nbrs.2 ≤ mag i then mag i else 0
  else 0

/-- Double-threshold stage: strong = 2, weak = 1 over the whole image. -/
def cannyStrength (low high : ℚ) (w h : ℕ) (sup : ℕ → ℚ) : ℕ → ℕ := fun i =>
  if i < w * h then
    if high ≤ sup i then 2 else if low ≤ sup i then 1 else 0
  else 0

/-- One in-place hysteresis pass over the interior: promote a weak pixel to
strong when any pixel of its 3×3 neighbourhood is strong (promotions made
earlier in the same pass are visible, as in the source's in-place loop). -/
def hysteresisPass (w h : ℕ) (e0 : ℕ → ℕ) : ℕ → ℕ :=
  scanRowMajor w h (fun e y x =>
    if 1 ≤ y ∧ y + 1 < h ∧ 1 ≤ x ∧ x + 1 < w then
      if e (y * w + x) = 1 ∧
          ((List.range 3).any fun dy => (List.range 3).any fun dx =>
            e ((y + dy - 1) * w + (x + dx - 1)) == 2) = true then
        upd e (y * w + x) 2
      else e
    else e) e0

/-- The `while (changed)` hysteresis loop. Each pass that changes anything
strictly increases the number of strong cells, of which there are at most
`w*h`, so `w*h+1` passes compute the loop's fixed point. -/
def cannyHysteresis (w h : ℕ) (e : ℕ → ℕ) : ℕ → ℕ :=
  (hysteresisPass w h)^[w * h + 1] e

/-- `cannyEdgeDetection(imageData, lowThreshold, highThreshold)`: strong
pixels black, everything else white, full opacity. -/
def cannyEdgeDetection (sqrtfn : ℚ → ℚ) (atan2fn : ℚ → ℚ → ℚ) (piQ : ℚ)
    (img : Img) (lowThreshold highThreshold : ℚ) : Img :=
  let w := img.width
  let h := img.height
  let blurred := cannyBlurred w h (cannyGray img)
  let magnitude := cannyMagnitude sqrtfn w h blurred
  let direction := cannyDirection atan2fn w h blurred
  let suppressed := cannySuppressed piQ w h magnitude direction
  let edges := cannyHysteresis w h
    (cannyStrength lowThreshold highThreshold w h suppressed)
  ⟨w, h, fun i =>
    if i < w * h ∧ edges i = 2 then ⟨0, 0, 0, 255⟩ else ⟨255, 255, 255, 255⟩⟩

/-! ## Masking engine (`masking.ts`) -/

/-- `applyMask(imageData, maskData, maskPosition)`: RGB copied, alpha scaled
by the mask's red channel at the inverse-mapped coordinate; `scale || 1`
replaces a zero scale by 1; out-of-bounds lookups contribute opacity 0. The
output array is allocated with `new Uint8ClampedArray(data.length)`, so
pixels past `w*h` are the zero fill. -/
def applyMask (img : Img) (mask : Img) (posX posY posScale : ℚ) : Img :=
  let w := img.width
  let h := img.height
  let scale := if posScale = 0 then 1 else posScale
  let centerX : ℚ := (w : ℚ) / 2 + posX
  let centerY : ℚ := (h : ℚ) / 2 + posY
  let maskCenterX : ℚ := (mask.width : ℚ) / 2
  let maskCenterY : ℚ := (mask.height : ℚ) / 2
  ⟨w, h, fun i =>
    if i < w * h then
      let y := i / w
      let x := i % w
      let maskX : ℤ := roundJS (((x : ℚ) - centerX) / scale + maskCenterX)
      let maskY : ℤ := roundJS (((y : ℚ) - centerY) / scale + maskCenterY)
      let maskValue : ℕ :=
        if 0 ≤ maskX ∧ maskX < (mask.width : ℤ) ∧ 0 ≤ maskY ∧ maskY < (mask.height : ℤ)
        then (mask.pix (maskY.toNat * mask.width + maskX.toNat)).r else 0
      ⟨(img.pix i).r, (img.pix i).g, (img.pix i).b,
        clampedByte ((roundJS ((((img.pix i).a * maskValue : ℕ) : ℚ) / 255) : ℚ))⟩
    else ⟨0, 0, 0, 0⟩⟩

/-! ## Index bookkeeping and conversion lemmas -/

theorem idx_div (w y x : ℕ) (hx : x < w) : (y * w + x) / w = y := by
  have hw : 0 < w := Nat.pos_of_ne_zero (by rintro rfl; exact Nat.not_lt_zero x hx)
  rw [Nat.mul_comm, Nat.mul_add_div hw, Nat.div_eq_of_lt hx, Nat.add_zero]

theorem idx_mod (w y x : ℕ) (hx : x < w) : (y * w + x) % w = x := by
  rw [Nat.add_comm, Nat.add_mul_mod_self_right, Nat.mod_eq_of_lt hx]

theorem idx_lt (w h y x : ℕ) (hx : x < w) (hy : y < h) : y * w + x < w * h := by
  calc y * w + x < y * w + w := Nat.add_lt_add_left hx _
  _ = (y + 1) * w := (Nat.succ_mul y w).symm
  _ ≤ h * w := Nat.mul_le_mul_right w hy
  _ = w * h := Nat.mul_comm h w

theorem roundTiesEven_intCast (z : ℤ) : roundTiesEven (z : ℚ) = z := by
  have h : ⌊(z : ℚ)⌋ = z := Int.floor_intCast z
  simp [roundTiesEven, h]

theorem clampedByte_intCast (z : ℤ) (h0 : 0 ≤ z) (h1 : z ≤ 255) :
    clampedByte (z : ℚ) = z.toNat := by
  have hq1 : (z : ℚ) ≤ 255 := by exact_mod_cast h1
  have hq0 : (0 : ℚ) ≤ (z : ℚ) := by exact_mod_cast h0
  rw [clampedByte, clampQ, min_eq_right hq1, max_eq_right hq0, roundTiesEven_intCast]

/-! ## Claim C4: the alpha-aware gray formula -/

/-- C4: `getGrayOnWhite` returns 255 whenever alpha is 0 regardless of RGB;
for a fully opaque pixel it returns `0.299*R + 0.587*G + 0.114*B` (hence
76.245 on `(255,0,0,255)`, exactly in the rational model); and for
`0 < alpha < 255` it composites every channel on white as
`channel*alpha/255 + 255*(1 - alpha/255)` before weighting. -/
theorem getGrayOnWhite_cases (p : Pixel) :
    (p.a = 0 → getGrayOnWhite p = 255) ∧
    (p.a = 255 → getGrayOnWhite p =
      0.299 * (p.r : ℚ) + 0.587 * (p.g : ℚ) + 0.114 * (p.b : ℚ)) ∧
    getGrayOnWhite ⟨255, 0, 0, 255⟩ = 76.245 ∧
    (0 < p.a → p.a < 255 → getGrayOnWhite p =
      0.299 * ((p.r : ℚ) * ((p.a : ℚ) / 255) + 255 * (1 - (p.a : ℚ) / 255)) +
      0.587 * ((p.g : ℚ) * ((p.a : ℚ) / 255) + 255 * (1 - (p.a : ℚ) / 255)) +
      0.114 * ((p.b : ℚ) * ((p.a : ℚ) / 255) + 255 * (1 - (p.a : ℚ) / 255))) := by
  refine ⟨fun h => by simp [getGrayOnWhite, h], fun h => by simp [getGrayOnWhite, h],
    by norm_num [getGrayOnWhite], fun h1 h2 => ?_⟩
  have hne : p.a ≠ 0 := Nat.pos_iff_ne_zero.mp h1
  simp [getGrayOnWhite, hne, h2]

theorem getGrayOnWhite_cases_witness :
    getGrayOnWhite ⟨7, 8, 9, 0⟩ = 255 ∧
    getGrayOnWhite ⟨10, 20, 30, 102⟩ =
      0.299 * ((10 : ℚ) * ((102 : ℚ) / 255) + 255 * (1 - (102 : ℚ) / 255)) +
      0.587 * ((20 : ℚ) * ((102 : ℚ) / 255) + 255 * (1 - (102 : ℚ) / 255)) +
      0.114 * ((30 : ℚ) * ((102 : ℚ) / 255) + 255 * (1 - (102 : ℚ) / 255)) :=
  ⟨(getGrayOnWhite_cases ⟨7, 8, 9, 0⟩).1 rfl,
   (getGrayOnWhite_cases ⟨10, 20, 30, 102⟩).2.2.2 (by norm_num) (by norm_num)⟩

/-! ## Claim C5: no-op adjustment parameters -/

/-- C5: on a well-formed buffer, `adjustBrightness(buf, 0)`,
`adjustGamma(buf, 1.0)` and `adjustContrast(buf, 0)` return the input
pixel-exactly, including the rounding through the gamma lookup table and the
contrast factor computation. `powfn` is `Math.pow`, exact at exponent 1. -/
theorem noop_adjustments (powfn : ℚ → ℚ → ℚ) (img : Img) (hwf : img.Wf)
    (hpow : ∀ q : ℚ, powfn q 1 = q) (i : ℕ) :
    (adjustBrightness img 0).pix i = img.pix i ∧
    (adjustGamma powfn img 1).pix i = img.pix i ∧
    (adjustContrast img 0).pix i = img.pix i := by
  by_cases hi : i < img.width * img.height
  · obtain ⟨hr, hg, hb, _⟩ := hwf i hi
    have hch : ∀ v : ℕ, v ≤ 255 → clampedByte (clampQ ((v : ℚ) + 0)) = v := by
      intro v hv
      rw [add_zero, clampQ_natCast v hv, clampedByte_natCast v hv]
    have hlut : ∀ v : ℕ, v ≤ 255 → gammaLut powfn 1 v = v := by
      intro v hv
      have hv' : v < 256 := Nat.lt_succ_of_le hv
      rw [gammaLut]
      rw [if_pos hv']
      have h1 : (1 : ℚ) / 1 = 1 := by norm_num
      rw [h1, hpow]
      have h2 : (v : ℚ) / 255 * 255 = (v : ℚ) := div_mul_cancel₀ _ (by norm_num)
      rw [h2, toUint8, clampQ_natCast v hv]
      have h3 : ⌊(v : ℚ)⌋ = (v : ℤ) := Int.floor_natCast v
      rw [h3]
      exact Int.toNat_natCast v
    have hcc : ∀ v : ℕ, v ≤ 255 → contrastChan (contrastFactor 0) v = v := by
      intro v hv
      have hfac : contrastFactor 0 = 1 := by norm_num [contrastFactor]
      rw [contrastChan, hfac]
      have h3 : (((v : ℚ) / 255 - 0.5) * 1 + 0.5) * 255 = (v : ℚ) := by ring
      rw [h3, clampQ_natCast v hv, clampedByte_natCast v hv]
    refine ⟨?_, ?_, ?_⟩
    · show (mapPixels img (brightPixel 0)).pix i = img.pix i
      simp only [mapPixels, if_pos hi]
      rw [brightPixel]
      rw [hch _ hr, hch _ hg, hch _ hb]
    · show (mapPixels img (gammaPixel (gammaLut powfn 1))).pix i = img.pix i
      simp only [mapPixels, if_pos hi]
      rw [gammaPixel]
      rw [hlut _ hr, hlut _ hg, hlut _ hb]
    · show (mapPixels img (contrastPixel (contrastFactor 0))).pix i = img.pix i
      simp only [mapPixels, if_pos hi]
      rw [contrastPixel]
      rw [hcc _ hr, hcc _ hg, hcc _ hb]
  · refine ⟨?_, ?_, ?_⟩ <;>
    · simp only [adjustBrightness, adjustGamma, adjustContrast, mapPixels, if_neg hi]

/-- A concrete 1×1 well-formed buffer used by witnesses. -/
def demoImg : Img := ⟨1, 1, fun _ => ⟨10, 20, 30, 40⟩⟩

theorem noop_adjustments_witness :
    (adjustBrightness demoImg 0).pix 0 = demoImg.pix 0 ∧
    (adjustGamma (fun q _ => q) demoImg 1).pix 0 = demoImg.pix 0 ∧
    (adjustContrast demoImg 0).pix 0 = demoImg.pix 0 :=
  noop_adjustments (fun q _ => q) demoImg (by decide) (fun _ => rfl) 0

/-! ## Claim C7: `extractContours` -/

/-- C7: a pixel of `extractContours(buf, threshold)` is black exactly when it
is strictly inside the image, its alpha-aware gray is below the threshold, and
at least one 4-connected neighbour has gray at or above the threshold; every
other pixel — border pixels in particular — is white with alpha 255. -/
theorem extractContours_marks (img : Img) (t : ℚ) (x y : ℕ)
    (hx : x < img.width) (hy : y < img.height) :
    (extractContours img t).pix (y * img.width + x) =
      if 0 < x ∧ x + 1 < img.width ∧ 0 < y ∧ y + 1 < img.height ∧
          getGrayOnWhite (img.pix (y * img.width + x)) < t ∧
          (t ≤ getGrayOnWhite (img.pix (y * img.width + (x - 1))) ∨
           t ≤ getGrayOnWhite (img.pix (y * img.width + (x + 1))) ∨
           t ≤ getGrayOnWhite (img.pix ((y - 1) * img.width + x)) ∨
           t ≤ getGrayOnWhite (img.pix ((y + 1) * img.width + x)))
      then ⟨0, 0, 0, 255⟩ else ⟨255, 255, 255, 255⟩ := by
  have hi : y * img.width + x < img.width * img.height := idx_lt _ _ _ _ hx hy
  have hdiv := idx_div img.width y x hx
  have hmod := idx_mod img.width y x hx
  have hbin1 : ∀ j, j < img.width * img.height →
      (contourBinary img t j = 1 ↔ getGrayOnWhite (img.pix j) < t) := by
    intro j hj
    by_cases hg : getGrayOnWhite (img.pix j) < t
    · simp [contourBinary, hj, hg]
    · simp [contourBinary, hj, hg]
  have hbin0 : ∀ j, j < img.width * img.height →
      (contourBinary img t j = 0 ↔ t ≤ getGrayOnWhite (img.pix j)) := by
    intro j hj
    by_cases hg : getGrayOnWhite (img.pix j) < t
    · simp [contourBinary, hj, hg, not_le.mpr hg]
    · simp [contourBinary, hj, hg, not_lt.mp hg]
  simp only [extractContours]
  rw [hdiv, hmod]
  refine if_congr ?_ rfl rfl
  constructor
  · rintro ⟨-, hy1, hy2, hx1, hx2, hb1, hnb⟩
    have e1 : y * img.width + x - 1 = y * img.width + (x - 1) := Nat.add_sub_assoc hx1 _
    have e2 : y * img.width + x + 1 = y * img.width + (x + 1) := by rw [Nat.add_assoc]
    have e3 : y * img.width + x - img.width = (y - 1) * img.width + x := by
      obtain ⟨y', rfl⟩ : ∃ y', y = y' + 1 := ⟨y - 1, by omega⟩
      rw [Nat.succ_mul, Nat.add_right_comm, Nat.add_sub_cancel]
      simp
    have e4 : y * img.width + x + img.width = (y + 1) * img.width + x := by ring
    have hj1 : y * img.width + (x - 1) < img.width * img.height :=
      lt_of_le_of_lt (Nat.add_le_add_left (Nat.sub_le x 1) _) hi
    have hj2 : y * img.width + (x + 1) < img.width * img.height := idx_lt _ _ _ _ hx2 hy
    have hj3 : (y - 1) * img.width + x < img.width * img.height :=
      idx_lt _ _ _ _ hx (by omega)
    have hj4 : (y + 1) * img.width + x < img.width * img.height := idx_lt _ _ _ _ hx hy2
    refine ⟨hx1, hx2, hy1, hy2, (hbin1 _ hi).mp hb1, ?_⟩
    rcases hnb with h | h | h | h
    · exact Or.inl ((hbin0 _ hj1).mp (e1 ▸ h))
    · exact Or.inr (Or.inl ((hbin0 _ hj2).mp (e2 ▸ h)))
    · exact Or.inr (Or.inr (Or.inl ((hbin0 _ hj3).mp (e3 ▸ h))))
    · exact Or.inr (Or.inr (Or.inr ((hbin0 _ hj4).mp (e4 ▸ h))))
  · rintro ⟨hx1, hx2, hy1, hy2, hg, hnb⟩
    have e1 : y * img.width + x - 1 = y * img.width + (x - 1) := Nat.add_sub_assoc hx1 _
    have e2 : y * img.width + x + 1 = y * img.width + (x + 1) := by rw [Nat.add_assoc]
    have e3 : y * img.width + x - img.width = (y - 1) * img.width + x := by
      obtain ⟨y', rfl⟩ : ∃ y', y = y' + 1 := ⟨y - 1, by omega⟩
      rw [Nat.succ_mul, Nat.add_right_comm, Nat.add_sub_cancel]
      simp
    have e4 : y * img.width + x + img.width = (y + 1) * img.width + x := by ring
    have hj1 : y * img.width + (x - 1) < img.width * img.height :=
      lt_of_le_of_lt (Nat.add_le_add_left (Nat.sub_le x 1) _) hi
    have hj2 : y * img.width + (x + 1) < img.width * img.height := idx_lt _ _ _ _ hx2 hy
    have hj3 : (y - 1) * img.width + x < img.width * img.height :=
      idx_lt _ _ _ _ hx (by omega)
    have hj4 : (y + 1) * img.width + x < img.width * img.height := idx_lt _ _ _ _ hx hy2
    refine ⟨hi, hy1, hy2, hx1, hx2, (hbin1 _ hi).mpr hg, ?_⟩
    rcases hnb with h | h | h | h
    · exact Or.inl (by rw [e1]; exact (hbin0 _ hj1).mpr h)
    · exact Or.inr (Or.inl (by rw [e2]; exact (hbin0 _ hj2).mpr h))
    · exact Or.inr (Or.inr (Or.inl (by rw [e3]; exact (hbin0 _ hj3).mpr h)))
    · exact Or.inr (Or.inr (Or.inr (by rw [e4]; exact (hbin0 _ hj4).mpr h)))

/-- A 3×3 buffer with a single dark centre pixel. -/
def contourDemo : Img :=
  ⟨3, 3, fun i => if i = 4 then ⟨0, 0, 0, 255⟩ else ⟨255, 255, 255, 255⟩⟩

theorem extractContours_marks_witness :
    (extractContours contourDemo 128).pix 4 = ⟨0, 0, 0, 255⟩ := by
  have h := extractContours_marks contourDemo 128 1 1 (by decide) (by decide)
  rw [show (4 : ℕ) = 1 * contourDemo.width + 1 from rfl, h]
  norm_num [contourDemo, getGrayOnWhite]

/-! ## Claim C8: `applyMask` -/

/-- The specification's inverse-mapped mask opacity: the mask's red channel at
`round((imgCoord - center)/scale + maskCenter)` where `center` is the image
centre shifted by the mask position; 0 when the mapped coordinate falls
outside the mask. -/
def maskValueAt (mask : Img) (w h : ℕ) (posX posY scale : ℚ) (x y : ℕ) : ℕ :=
  let maskX : ℤ := roundJS (((x : ℚ) - ((w : ℚ) / 2 + posX)) / scale + (mask.width : ℚ) / 2)
  let maskY : ℤ := roundJS (((y : ℚ) - ((h : ℚ) / 2 + posY)) / scale + (mask.height : ℚ) / 2)
  if 0 ≤ maskX ∧ maskX < (mask.width : ℤ) ∧ 0 ≤ maskY ∧ maskY < (mask.height : ℤ)
  then (mask.pix (maskY.toNat * mask.width + maskX.toNat)).r else 0

theorem maskValueAt_le (mask : Img) (hmwf : mask.Wf) (w h : ℕ)
    (posX posY scale : ℚ) (x y : ℕ) :
    maskValueAt mask w h posX posY scale x y ≤ 255 := by
  rw [maskValueAt]
  split_ifs with hb
  · obtain ⟨h1, h2, h3, h4⟩ := hb
    have hxn : (roundJS (((x : ℚ) - ((w : ℚ) / 2 + posX)) / scale +
        (mask.width : ℚ) / 2)).toNat < mask.width := by omega
    have hyn : (roundJS (((y : ℚ) - ((h : ℚ) / 2 + posY)) / scale +
        (mask.height : ℚ) / 2)).toNat < mask.height := by omega
    exact (hmwf _ (idx_lt _ _ _ _ hxn hyn)).1
  · exact Nat.zero_le 255

/-- C8: for a nonzero scale and well-formed buffers, `applyMask` copies every
RGB channel from the input, and sets every alpha to
`round(inputAlpha * maskValue / 255)` where `maskValue` is the mask's red
channel at the inverse-mapped coordinate and 0 outside the mask bounds. -/
theorem applyMask_spec (img mask : Img) (posX posY posScale : ℚ)
    (hs : posScale ≠ 0) (hwf : img.Wf) (hmwf : mask.Wf)
    (x y : ℕ) (hx : x < img.width) (hy : y < img.height) :
    ((applyMask img mask posX posY posScale).pix (y * img.width + x)).r =
      (img.pix (y * img.width + x)).r ∧
    ((applyMask img mask posX posY posScale).pix (y * img.width + x)).g =
      (img.pix (y * img.width + x)).g ∧
    ((applyMask img mask posX posY posScale).pix (y * img.width + x)).b =
      (img.pix (y * img.width + x)).b ∧
    ((applyMask img mask posX posY posScale).pix (y * img.width + x)).a =
      (roundJS ((((img.pix (y * img.width + x)).a *
        maskValueAt mask img.width img.height posX posY posScale x y : ℕ) : ℚ) /
        255)).toNat := by
  have hi : y * img.width + x < img.width * img.height := idx_lt _ _ _ _ hx hy
  have hdiv := idx_div img.width y x hx
  have hmod := idx_mod img.width y x hx
  have key : (applyMask img mask posX posY posScale).pix (y * img.width + x) =
      ⟨(img.pix (y * img.width + x)).r, (img.pix (y * img.width + x)).g,
       (img.pix (y * img.width + x)).b,
       clampedByte ((roundJS ((((img.pix (y * img.width + x)).a *
         maskValueAt mask img.width img.height posX posY posScale x y : ℕ) : ℚ) /
         255) : ℤ) : ℚ)⟩ := by
    simp only [applyMask, maskValueAt, if_pos hi, hdiv, hmod, if_neg hs]
  rw [key]
  refine ⟨rfl, rfl, rfl, ?_⟩
  have ha : (img.pix (y * img.width + x)).a ≤ 255 := (hwf _ hi).2.2.2
  have hmv := maskValueAt_le mask hmwf img.width img.height posX posY posScale x y
  have hprod : (img.pix (y * img.width + x)).a *
      maskValueAt mask img.width img.height posX posY posScale x y ≤ 65025 :=
    Nat.mul_le_mul ha hmv
  have hq0 : (0 : ℚ) ≤ (((img.pix (y * img.width + x)).a *
      maskValueAt mask img.width img.height posX posY posScale x y : ℕ) : ℚ) / 255 := by
    positivity
  have hq1 : (((img.pix (y * img.width + x)).a *
      maskValueAt mask img.width img.height posX posY posScale x y : ℕ) : ℚ) / 255 ≤ 255 := by
    rw [div_le_iff₀ (by norm_num : (0 : ℚ) < 255)]
    calc (((img.pix (y * img.width + x)).a *
        maskValueAt mask img.width img.height posX posY posScale x y : ℕ) : ℚ)
        ≤ 65025 := by exact_mod_cast hprod
    _ = 255 * 255 := by norm_num
  have hz0 : 0 ≤ roundJS ((((img.pix (y * img.width + x)).a *
      maskValueAt mask img.width img.height posX posY posScale x y : ℕ) : ℚ) / 255) := by
    rw [roundJS]
    exact Int.floor_nonneg.mpr (by linarith)
  have hz1 : roundJS ((((img.pix (y * img.width + x)).a *
      maskValueAt mask img.width img.height posX posY posScale x y : ℕ) : ℚ) / 255) ≤ 255 := by
    have h2 : ((((img.pix (y * img.width + x)).a *
        maskValueAt mask img.width img.height posX posY posScale x y : ℕ) : ℚ) / 255) +
        1 / 2 < ((256 : ℤ) : ℚ) := by
      have h256 : ((256 : ℤ) : ℚ) = 256 := by norm_num
      rw [h256]
      linarith
    have hlt : roundJS ((((img.pix (y * img.width + x)).a *
        maskValueAt mask img.width img.height posX posY posScale x y : ℕ) : ℚ) / 255) <
        256 := Int.floor_lt.mpr h2
    omega
  exact clampedByte_intCast _ hz0 hz1

/-- A fully opaque white 1×1 mask. -/
def maskDemo : Img := ⟨1, 1, fun _ => ⟨255, 255, 255, 255⟩⟩

theorem applyMask_spec_witness :
    ((applyMask demoImg maskDemo 0 0 1).pix (0 * demoImg.width + 0)).a =
      (roundJS ((((demoImg.pix (0 * demoImg.width + 0)).a *
        maskValueAt maskDemo demoImg.width demoImg.height 0 0 1 0 0 : ℕ) : ℚ) /
        255)).toNat :=
  (applyMask_spec demoImg maskDemo 0 0 1 (by norm_num) (by decide) (by decide)
    0 0 (by decide) (by decide)).2.2.2

/-! ## Claim C1: Floyd–Steinberg matches its specification -/

theorem fsDistribute_eq_spec (w h y x : ℕ) (qe : ℚ) (e : ℕ → ℚ) :
    fsDistribute w h y x qe e = fsSpecDistribute w h y x qe e := by
  have h7 : qe * 7 / 16 = qe * (7 / 16) := by ring
  have h3 : qe * 3 / 16 = qe * (3 / 16) := by ring
  have h5 : qe * 5 / 16 = qe * (5 / 16) := by ring
  have h1 : qe * 1 / 16 = qe * (1 / 16) := by ring
  have i1 : y * w + x + 1 = y * w + (x + 1) := by omega
  have i3 : y * w + x + w = (y + 1) * w + x := by ring
  have i4 : y * w + x + w + 1 = (y + 1) * w + (x + 1) := by ring
  rw [fsDistribute, fsSpecDistribute]
  by_cases hyy : y + 1 < h
  · by_cases hx0 : 0 < x
    · have i2 : y * w + x + w - 1 = (y + 1) * w + (x - 1) := by
        rw [Nat.succ_mul]; omega
      have i2b : (y + 1) * w + x - 1 = (y + 1) * w + (x - 1) := by
        rw [Nat.succ_mul]; omega
      have i4b : (y + 1) * w + x + 1 = (y + 1) * w + (x + 1) := by omega
      by_cases hxx : x + 1 < w
      · simp only [if_pos hyy, if_pos hx0, if_pos hxx,
          if_pos (show 0 < x ∧ y + 1 < h from ⟨hx0, hyy⟩),
          if_pos (show x + 1 < w ∧ y + 1 < h from ⟨hxx, hyy⟩),
          i1, i2, i3, i4, i2b, i4b, h7, h3, h5, h1]
      · have nc2 : ¬(x + 1 < w ∧ y + 1 < h) := fun hc => hxx hc.1
        simp only [if_pos hyy, if_pos hx0, if_neg hxx,
          if_pos (show 0 < x ∧ y + 1 < h from ⟨hx0, hyy⟩), if_neg nc2,
          i2, i3, i2b, h3, h5]
    · have nc1 : ¬(0 < x ∧ y + 1 < h) := fun hc => hx0 hc.1
      have i4b : (y + 1) * w + x + 1 = (y + 1) * w + (x + 1) := by omega
      by_cases hxx : x + 1 < w
      · simp only [if_pos hyy, if_neg hx0, if_pos hxx, if_neg nc1,
          if_pos (show x + 1 < w ∧ y + 1 < h from ⟨hxx, hyy⟩),
          i1, i3, i4, i4b, h7, h5, h1]
      · have nc2 : ¬(x + 1 < w ∧ y + 1 < h) := fun hc => hxx hc.1
        simp only [if_pos hyy, if_neg hx0, if_neg hxx, if_neg nc1, if_neg nc2, i3, h5]
  · have nc1 : ¬(0 < x ∧ y + 1 < h) := fun hc => hyy hc.2
    have nc2 : ¬(x + 1 < w ∧ y + 1 < h) := fun hc => hyy hc.2
    simp only [if_neg hyy, if_neg nc1, if_neg nc2, i1, h7]

theorem fsStep_eq (img : Img) (s : (ℕ → ℚ) × (ℕ → Pixel)) (y x : ℕ) :
    diffuseStep img.pix img.width (fsDistribute img.width img.height) s y x =
      fsSpecStep img.pix img.width img.height s y x := by
  rw [diffuseStep, fsSpecStep, fsDistribute_eq_spec]

/-- C1: `floydSteinberg` computes exactly the specification's algorithm: a
row-major scan over an accumulator seeded with each pixel's alpha-aware gray,
quantization at threshold 128 to 0 or 255, and distribution of the error
`old - new` to the not-yet-visited neighbours with weights right 7/16,
below-left 3/16, below 5/16, below-right 1/16, every out-of-bounds neighbour
skipped. -/
theorem floydSteinberg_matches_spec (img : Img) :
    floydSteinberg img = floydSteinbergSpec img := by
  have hseed : errorsInit img = fun i =>
      if i < img.width * img.height then getGrayOnWhite (img.pix i) else 0 := by
    funext i
    simp only [errorsInit, getGray_eq_getGrayOnWhite]
  have hscan : scanRowMajor img.width img.height
      (diffuseStep img.pix img.width (fsDistribute img.width img.height))
      (errorsInit img, img.pix) =
    scanRowMajor img.width img.height (fsSpecStep img.pix img.width img.height)
      (fun i => if i < img.width * img.height then getGrayOnWhite (img.pix i) else 0,
       img.pix) := by
    rw [hseed]
    exact scanRowMajor_congr (fun s y x _ _ => fsStep_eq img s y x) _
  simp only [floydSteinberg, diffuseDither, floydSteinbergSpec, hscan]

/-! ## Claim C2: dithering output is binary with alpha passthrough -/

theorem scan_write_shape {σ : Type} (proj : σ → ℕ → Pixel) (f : σ → ℕ → ℕ → σ)
    (w h : ℕ) (P : ℕ → Pixel → Prop) (i : ℕ) (hi : i < w * h)
    (hwrite : ∀ s y x, y = i / w → x = i % w → y * w + x = i → P i (proj (f s y x) i))
    (hpres : ∀ s y x, y * w + x ≠ i → proj (f s y x) i = proj s i)
    (init : σ) : P i (proj (scanRowMajor w h f init) i) := by
  have hw : 0 < w := by
    rcases Nat.eq_zero_or_pos w with h0 | h0
    · subst h0; simp at hi
    · exact h0
  have hid : ∀ j : ℕ, j / w * w + j % w = j := by
    intro j
    rw [Nat.mul_comm]
    exact Nat.div_add_mod j w
  rw [scanRowMajor_eq_flat]
  refine foldl_write_shape proj (fun s j => f s (j / w) (j % w)) P i
    (fun s => hwrite s (i / w) (i % w) rfl rfl (hid i))
    (fun s j hji => hpres s (j / w) (j % w) (by rw [hid j]; exact hji))
    _ _ (List.mem_range.mpr (by rw [Nat.mul_comm h w]; exact hi))

theorem diffuseDither_pixel (img : Img) (dist : ℕ → ℕ → ℚ → (ℕ → ℚ) → ℕ → ℚ)
    (i : ℕ) (hi : i < img.width * img.height) :
    (((diffuseDither img dist).pix i).r = 0 ∨
      ((diffuseDither img dist).pix i).r = 255) ∧
    ((diffuseDither img dist).pix i).g = ((diffuseDither img dist).pix i).r ∧
    ((diffuseDither img dist).pix i).b = ((diffuseDither img dist).pix i).r ∧
    ((diffuseDither img dist).pix i).a = (img.pix i).a := by
  show (((Prod.snd (scanRowMajor img.width img.height
      (diffuseStep img.pix img.width dist) (errorsInit img, img.pix))) i).r = 0 ∨ _) ∧ _
  refine scan_write_shape Prod.snd _ img.width img.height
    (fun j p => (p.r = 0 ∨ p.r = 255) ∧ p.g = p.r ∧ p.b = p.r ∧ p.a = (img.pix j).a)
    i hi ?_ ?_ _
  · intro s y x _ _ hyx
    simp only [diffuseStep]
    rw [hyx, upd_self]
    by_cases hc : s.1 i < 128
    · exact ⟨Or.inl (if_pos hc), rfl, rfl, rfl⟩
    · exact ⟨Or.inr (if_neg hc), rfl, rfl, rfl⟩
  · intro s y x hne
    simp only [diffuseStep]
    exact upd_ne _ _ _ _ (Ne.symm hne)

theorem bayerScan_pixel (matrix : List (List ℚ)) (size : ℕ) (img : Img)
    (i : ℕ) (hi : i < img.width * img.height) :
    (((scanRowMajor img.width img.height
        (bayerStep matrix size img.pix img.width) img.pix) i).r = 0 ∨
      ((scanRowMajor img.width img.height
        (bayerStep matrix size img.pix img.width) img.pix) i).r = 255) ∧
    ((scanRowMajor img.width img.height
        (bayerStep matrix size img.pix img.width) img.pix) i).g =
      ((scanRowMajor img.width img.height
        (bayerStep matrix size img.pix img.width) img.pix) i).r ∧
    ((scanRowMajor img.width img.height
        (bayerStep matrix size img.pix img.width) img.pix) i).b =
      ((scanRowMajor img.width img.height
        (bayerStep matrix size img.pix img.width) img.pix) i).r ∧
    ((scanRowMajor img.width img.height
        (bayerStep matrix size img.pix img.width) img.pix) i).a = (img.pix i).a := by
  refine scan_write_shape id _ img.width img.height
    (fun j p => (p.r = 0 ∨ p.r = 255) ∧ p.g = p.r ∧ p.b = p.r ∧ p.a = (img.pix j).a)
    i hi ?_ ?_ _
  · intro s y x _ _ hyx
    simp only [bayerStep, id]
    rw [hyx, upd_self]
    by_cases hc : (matrix.getD (y % size) []).getD (x % size) 0 < getGray (img.pix i)
    · exact ⟨Or.inr (if_pos hc), rfl, rfl, rfl⟩
    · exact ⟨Or.inl (if_neg hc), rfl, rfl, rfl⟩
  · intro s y x hne
    simp only [bayerStep, id]
    exact upd_ne _ _ _ _ (Ne.symm hne)

/-- C2: every one of the nine dithering algorithms produces, at every real
pixel, R = G = B with the value exactly 0 or 255, and copies the input's
alpha at that pixel. -/
theorem dithering_binary_alpha (alg : DitheringAlgorithm) (img : Img) (i : ℕ)
    (hi : i < img.width * img.height) :
    (((ditheringAlgorithms alg img).pix i).r = 0 ∨
      ((ditheringAlgorithms alg img).pix i).r = 255) ∧
    ((ditheringAlgorithms alg img).pix i).g = ((ditheringAlgorithms alg img).pix i).r ∧
    ((ditheringAlgorithms alg img).pix i).b = ((ditheringAlgorithms alg img).pix i).r ∧
    ((ditheringAlgorithms alg img).pix i).a = (img.pix i).a := by
  cases alg
  case floydSteinberg => exact diffuseDither_pixel img _ i hi
  case jarvisJudiceNinke => exact diffuseDither_pixel img _ i hi
  case stucki => exact diffuseDither_pixel img _ i hi
  case atkinson => exact diffuseDither_pixel img _ i hi
  case sierra => exact diffuseDither_pixel img _ i hi
  case sierraTwoRow => exact diffuseDither_pixel img _ i hi
  case burkes => exact diffuseDither_pixel img _ i hi
  case bayerOrdered => exact bayerScan_pixel bayerMatrix8 8 img i hi
  case bayerOrdered4x4 => exact bayerScan_pixel bayerMatrix4 4 img i hi

theorem dithering_binary_alpha_witness :
    (((ditheringAlgorithms .floydSteinberg demoImg).pix 0).r = 0 ∨
      ((ditheringAlgorithms .floydSteinberg demoImg).pix 0).r = 255) ∧
    ((ditheringAlgorithms .floydSteinberg demoImg).pix 0).g =
      ((ditheringAlgorithms .floydSteinberg demoImg).pix 0).r ∧
    ((ditheringAlgorithms .floydSteinberg demoImg).pix 0).b =
      ((ditheringAlgorithms .floydSteinberg demoImg).pix 0).r ∧
    ((ditheringAlgorithms .floydSteinberg demoImg).pix 0).a = (demoImg.pix 0).a :=
  dithering_binary_alpha .floydSteinberg demoImg 0 (by decide)

/-! ## Claim C10: the 255 entry of the 4×4 Bayer matrix -/

/-- C10 (amended): any pixel at a position with `y % 4 = 3` and `x % 4 = 0`
meets the matrix entry 255, so whenever its alpha-aware gray does not exceed
255 the strict comparison `gray > threshold` fails and the output pixel is
black (alpha copied). Hence no buffer *containing such a position* with gray
at most 255 there can come out all white. -/
theorem bayer4x4_forced_black (img : Img) (x y : ℕ)
    (hx : x < img.width) (hy : y < img.height)
    (hy4 : y % 4 = 3) (hx4 : x % 4 = 0)
    (hg : getGray (img.pix (y * img.width + x)) ≤ 255) :
    (bayerOrdered4x4 img).pix (y * img.width + x) =
      ⟨0, 0, 0, (img.pix (y * img.width + x)).a⟩ := by
  have hi : y * img.width + x < img.width * img.height := idx_lt _ _ _ _ hx hy
  have hdiv := idx_div img.width y x hx
  have hmod := idx_mod img.width y x hx
  show (scanRowMajor img.width img.height
      (bayerStep bayerMatrix4 4 img.pix img.width) img.pix) (y * img.width + x) =
    ⟨0, 0, 0, (img.pix (y * img.width + x)).a⟩
  refine scan_write_shape id _ img.width img.height
    (fun j p => p = ⟨0, 0, 0, (img.pix j).a⟩) (y * img.width + x) hi ?_ ?_ _
  · intro s y' x' hy' hx' hyx
    rw [hdiv] at hy'
    rw [hmod] at hx'
    subst hy'
    subst hx'
    simp only [bayerStep, id]
    rw [upd_self, hy4, hx4]
    have ht : ((bayerMatrix4.getD 3 []).getD 0 0 : ℚ) = 255 := by decide
    rw [ht, if_neg (not_lt.mpr hg)]
  · intro s y' x' hne
    simp only [bayerStep, id]
    exact upd_ne _ _ _ _ (Ne.symm hne)

/-- A 1-wide, 4-tall fully white opaque buffer. -/
def col4White : Img := ⟨1, 4, fun _ => ⟨255, 255, 255, 255⟩⟩

theorem bayer4x4_forced_black_witness :
    (bayerOrdered4x4 col4White).pix (3 * col4White.width + 0) =
      ⟨0, 0, 0, (col4White.pix (3 * col4White.width + 0)).a⟩ :=
  bayer4x4_forced_black col4White 0 3 (by decide) (by decide) (by decide)
    (by decide) (by norm_num [getGray, col4White])

/-- A 1×1 fully white opaque buffer. -/
def whiteOneByOne : Img := ⟨1, 1, fun _ => ⟨255, 255, 255, 255⟩⟩

/-- C10 counterexample: contrary to the claim's final clause, an input CAN
produce an all-white output from the 4×4 Bayer variant — a 1×1 white image
has no position with `y % 4 = 3`, its only pixel meets matrix entry 0, and the
whole output is white. -/
theorem bayer4x4_allwhite_counterexample :
    whiteOneByOne.width = 1 ∧ whiteOneByOne.height = 1 ∧
    (bayerOrdered4x4 whiteOneByOne).pix 0 = ⟨255, 255, 255, 255⟩ := by
  refine ⟨rfl, rfl, ?_⟩
  show (scanRowMajor 1 1 (bayerStep bayerMatrix4 4 whiteOneByOne.pix 1)
    whiteOneByOne.pix) 0 = ⟨255, 255, 255, 255⟩
  rw [scanRowMajor, show List.range 1 = [0] from rfl]
  simp only [List.foldl_cons, List.foldl_nil]
  rw [bayerStep]
  norm_num [whiteOneByOne, getGray, bayerMatrix4, upd]

/-! ## Claim C3: unknown presets signal an error -/

/-- C3: `applyPreset` returns a value for each of the ten catalogued preset
ids and signals an error (`none`, modelling the thrown `Unknown preset`) for
every other id string. -/
theorem applyPreset_error_handling (powfn : ℚ → ℚ → ℚ) (img : Img) (name : String) :
    (name ∈ presetIds → (applyPreset powfn img name).isSome = true) ∧
    (name ∉ presetIds → applyPreset powfn img name = none) := by
  constructor
  · intro hmem
    simp only [presetIds, List.mem_cons, List.not_mem_nil, or_false] at hmem
    rcases hmem with rfl | rfl | rfl | rfl | rfl | rfl | rfl | rfl | rfl | rfl <;> rfl
  · intro hnot
    have h1 : name ≠ "photoRealism" := fun hc => hnot (by rw [hc]; decide)
    have h2 : name ≠ "trueTone" := fun hc => hnot (by rw [hc]; decide)
    have h3 : name ≠ "deepBurn" := fun hc => hnot (by rw [hc]; decide)
    have h4 : name ≠ "softDetail" := fun hc => hnot (by rw [hc]; decide)
    have h5 : name ≠ "stoneSlate" := fun hc => hnot (by rw [hc]; decide)
    have h6 : name ≠ "glassAcrylic" := fun hc => hnot (by rw [hc]; decide)
    have h7 : name ≠ "forgiving" := fun hc => hnot (by rw [hc]; decide)
    have h8 : name ≠ "edgePop" := fun hc => hnot (by rw [hc]; decide)
    have h9 : name ≠ "highContrast" := fun hc => hnot (by rw [hc]; decide)
    have h10 : name ≠ "pencilSketch" := fun hc => hnot (by rw [hc]; decide)
    simp only [applyPreset, presets, if_neg h1, if_neg h2, if_neg h3, if_neg h4,
      if_neg h5, if_neg h6, if_neg h7, if_neg h8, if_neg h9, if_neg h10]

theorem applyPreset_error_handling_witness :
    (applyPreset (fun q _ => q) demoImg "photoRealism").isSome = true ∧
    applyPreset (fun q _ => q) demoImg "not-a-real-preset" = none :=
  ⟨(applyPreset_error_handling (fun q _ => q) demoImg "photoRealism").1 (by decide),
   (applyPreset_error_handling (fun q _ => q) demoImg "not-a-real-preset").2 (by decide)⟩

/-! ## Claim C6: Canny on a uniform image

The specification requires an all-white output for every uniform-colour input
at any threshold pair. The code violates this: the Gaussian-blur stage fills
only the interior of a zero-initialized `Float32Array`, so on a uniform white
image of width and height at least 4 the Sobel stage sees a huge jump from the
zero border to the 255 interior, the resulting magnitude survives non-maximum
suppression (its comparison neighbours are either the equal-magnitude interior
ring or the zero border), exceeds the default high threshold 150, and paints
interior pixels black. The theorems below evaluate the pipeline on a 4×4
white opaque image at the default thresholds (50, 150). -/

/-- A 4×4 fully white opaque buffer. -/
def white4x4 : Img := ⟨4, 4, fun _ => ⟨255, 255, 255, 255⟩⟩

theorem white4x4_gray : cannyGray white4x4 = fun i => if i < 16 then (255 : ℚ) else 0 := by
  funext i
  by_cases hi : i < 16
  · simp only [cannyGray, white4x4, if_pos hi]
    norm_num [getGrayOnWhite]
  · simp [cannyGray, white4x4, hi]

theorem white4x4_blurred :
    cannyBlurred 4 4 (fun i => if i < 16 then (255 : ℚ) else 0) =
      fun i => if i = 5 ∨ i = 6 ∨ i = 9 ∨ i = 10 then (255 : ℚ) else 0 := by
  funext i
  by_cases h16 : i < 16
  · interval_cases i <;> norm_num [cannyBlurred]
  · have hg : ¬(1 ≤ i / 4 ∧ i / 4 + 1 < 4 ∧ 1 ≤ i % 4 ∧ i % 4 + 1 < 4) := by omega
    have hne : ¬(i = 5 ∨ i = 6 ∨ i = 9 ∨ i = 10) := by omega
    simp [cannyBlurred, hg, hne]

theorem hysteresisPass_pres_two (w h : ℕ) (e : ℕ → ℕ) (i : ℕ) (hi : e i = 2) :
    hysteresisPass w h e i = 2 := by
  rw [hysteresisPass]
  refine scanRowMajor_pres_of_step (fun e' => e' i = 2) w h _ ?_ e hi
  intro e' y x he
  dsimp only
  split_ifs with hg hc
  · by_cases hii : i = y * w + x
    · rw [hii, upd_self]
    · rw [upd_ne _ _ _ _ hii]; exact he
  · exact he
  · exact he

theorem cannyHysteresis_pres_two (w h : ℕ) (e : ℕ → ℕ) (i : ℕ) (hi : e i = 2) :
    cannyHysteresis w h e i = 2 := by
  rw [cannyHysteresis]
  generalize w * h + 1 = n
  induction n generalizing e with
  | zero => exact hi
  | succ n ih =>
    rw [Function.iterate_succ_apply]
    exact ih _ (hysteresisPass_pres_two w h e i hi)

/-- C6 (code bug): on the uniform 4×4 white opaque image at the default
thresholds (50, 150), `cannyEdgeDetection` outputs a BLACK pixel at (1,1),
for every model of `Math.sqrt` that is nonnegative at 1170450 and maps it
above 150 (the real square root is ≈ 1081.9) and for every model of
`Math.atan2` and `Math.PI` whatsoever — contradicting the specification's
all-white requirement for uniform images. -/
theorem canny_uniform_not_white (sqrtfn : ℚ → ℚ) (atan2fn : ℚ → ℚ → ℚ) (piQ : ℚ)
    (h0 : 0 ≤ sqrtfn 1170450) (h150 : 150 ≤ sqrtfn 1170450) :
    (cannyEdgeDetection sqrtfn atan2fn piQ white4x4 50 150).pix 5 = ⟨0, 0, 0, 255⟩ := by
  have hM0 : cannyMagnitude sqrtfn 4 4
      (fun i => if i = 5 ∨ i = 6 ∨ i = 9 ∨ i = 10 then (255 : ℚ) else 0) 0 = 0 := by
    norm_num [cannyMagnitude]
  have hM1 : cannyMagnitude sqrtfn 4 4
      (fun i => if i = 5 ∨ i = 6 ∨ i = 9 ∨ i = 10 then (255 : ℚ) else 0) 1 = 0 := by
    norm_num [cannyMagnitude]
  have hM2 : cannyMagnitude sqrtfn 4 4
      (fun i => if i = 5 ∨ i = 6 ∨ i = 9 ∨ i = 10 then (255 : ℚ) else 0) 2 = 0 := by
    norm_num [cannyMagnitude]
  have hM4 : cannyMagnitude sqrtfn 4 4
      (fun i => if i = 5 ∨ i = 6 ∨ i = 9 ∨ i = 10 then (255 : ℚ) else 0) 4 = 0 := by
    norm_num [cannyMagnitude]
  have hM8 : cannyMagnitude sqrtfn 4 4
      (fun i => if i = 5 ∨ i = 6 ∨ i = 9 ∨ i = 10 then (255 : ℚ) else 0) 8 = 0 := by
    norm_num [cannyMagnitude]
  have hM5 : cannyMagnitude sqrtfn 4 4
      (fun i => if i = 5 ∨ i = 6 ∨ i = 9 ∨ i = 10 then (255 : ℚ) else 0) 5 =
      sqrtfn 1170450 := by
    norm_num [cannyMagnitude, sobelGX, sobelGY]
  have hM6 : cannyMagnitude sqrtfn 4 4
      (fun i => if i = 5 ∨ i = 6 ∨ i = 9 ∨ i = 10 then (255 : ℚ) else 0) 6 =
      sqrtfn 1170450 := by
    norm_num [cannyMagnitude, sobelGX, sobelGY]
  have hM9 : cannyMagnitude sqrtfn 4 4
      (fun i => if i = 5 ∨ i = 6 ∨ i = 9 ∨ i = 10 then (255 : ℚ) else 0) 9 =
      sqrtfn 1170450 := by
    norm_num [cannyMagnitude, sobelGX, sobelGY]
  have hM10 : cannyMagnitude sqrtfn 4 4
      (fun i => if i = 5 ∨ i = 6 ∨ i = 9 ∨ i = 10 then (255 : ℚ) else 0) 10 =
      sqrtfn 1170450 := by
    norm_num [cannyMagnitude, sobelGX, sobelGY]
  have hS5 : cannySuppressed piQ 4 4
      (cannyMagnitude sqrtfn 4 4
        (fun i => if i = 5 ∨ i = 6 ∨ i = 9 ∨ i = 10 then (255 : ℚ) else 0))
      (cannyDirection atan2fn 4 4
        (fun i => if i = 5 ∨ i = 6 ∨ i = 9 ∨ i = 10 then (255 : ℚ) else 0)) 5 =
      sqrtfn 1170450 := by
    simp only [cannySuppressed]
    norm_num [hM0, hM1, hM2, hM4, hM5, hM6, hM8, hM9, hM10]
    split_ifs <;> simp_all
  have hE5 : cannyStrength 50 150 4 4
      (cannySuppressed piQ 4 4
        (cannyMagnitude sqrtfn 4 4
          (fun i => if i = 5 ∨ i = 6 ∨ i = 9 ∨ i = 10 then (255 : ℚ) else 0))
        (cannyDirection atan2fn 4 4
          (fun i => if i = 5 ∨ i = 6 ∨ i = 9 ∨ i = 10 then (255 : ℚ) else 0))) 5 = 2 := by
    rw [cannyStrength]
    norm_num [hS5, h150]
  have hfin : cannyHysteresis 4 4
      (cannyStrength 50 150 4 4
        (cannySuppressed piQ 4 4
          (cannyMagnitude sqrtfn 4 4
            (fun i => if i = 5 ∨ i = 6 ∨ i = 9 ∨ i = 10 then (255 : ℚ) else 0))
          (cannyDirection atan2fn 4 4
            (fun i => if i = 5 ∨ i = 6 ∨ i = 9 ∨ i = 10 then (255 : ℚ) else 0)))) 5 = 2 :=
    cannyHysteresis_pres_two 4 4 _ 5 hE5
  have hw : white4x4.width = 4 := rfl
  have hh : white4x4.height = 4 := rfl
  simp only [cannyEdgeDetection, hw, hh, white4x4_gray, white4x4_blurred]
  split_ifs with hcond
  · rfl
  · exact absurd (And.intro (by norm_num) hfin) hcond

theorem canny_uniform_not_white_witness :
    (cannyEdgeDetection (fun _ => 1082) (fun _ _ => 0) 3 white4x4 50 150).pix 5 =
      ⟨0, 0, 0, 255⟩ :=
  canny_uniform_not_white (fun _ => 1082) (fun _ _ => 0) 3 (by norm_num) (by norm_num)

/-! ## Claim C9: input immutability and fresh output allocation

The pure embeddings above cannot express mutation, so the frame claim is
settled against a second, write-discipline view of the same source functions:
buffers live in a heap (a list of pixel arrays addressed by allocation
order), `new Uint8ClampedArray(...)` allocates a fresh reference, and every
store of the source is an explicit `hwrite` to the reference the source
names. Per-pixel arithmetic is shared with the pure embedding through the
`...Pixel`/`...Chan` helpers; loops are represented by their sequence of
writes in source order, each write's value read from the current heap. A
function then satisfies the claim when it leaves every pre-existing reference
untouched and returns a reference at or past the old heap end (hence distinct
from every pre-existing reference, the input's included). -/

abbrev Heap : Type := List (ℕ → Pixel)

/-- Read an array out of the heap (a dangling reference reads as zeroes). -/
def hget (hp : Heap) (r : ℕ) : ℕ → Pixel := (hp[r]?).getD (fun _ => ⟨0, 0, 0, 0⟩)

/-- `new Uint8ClampedArray(...)`: append a fresh array, return its reference. -/
def halloc (hp : Heap) (arr : ℕ → Pixel) : Heap × ℕ := (hp ++ [arr], hp.length)

/-- A store `heap[r][i] = p`. -/
def hwrite (hp : Heap) (r i : ℕ) (p : Pixel) : Heap := hp.set r (upd (hget hp r) i p)

theorem hget_halloc (hp : Heap) (arr : ℕ → Pixel) (r : ℕ) (hr : r < hp.length) :
    hget (halloc hp arr).1 r = hget hp r := by
  simp only [hget, halloc]
  rw [List.getElem?_append, if_pos hr]

theorem length_halloc (hp : Heap) (arr : ℕ → Pixel) :
    (halloc hp arr).1.length = hp.length + 1 := by
  simp [halloc]

theorem hget_hwrite_ne (hp : Heap) (r i : ℕ) (p : Pixel) (r' : ℕ) (h : r' ≠ r) :
    hget (hwrite hp r i p) r' = hget hp r' := by
  simp only [hget, hwrite]
  rw [List.getElem?_set_ne (Ne.symm h)]

theorem length_hwrite (hp : Heap) (r i : ℕ) (p : Pixel) :
    (hwrite hp r i p).length = hp.length := by
  simp [hwrite]

/-- A write loop: for each index of `0..len-1`, compute an optional target
index and value from the current heap and store it into `dstRef`. -/
def writeLoopH (dstRef : ℕ) (f : Heap → ℕ → Option (ℕ × Pixel)) (len : ℕ)
    (hp : Heap) : Heap :=
  (List.range len).foldl (fun hp i =>
    match f hp i with
    | some jp => hwrite hp dstRef jp.1 jp.2
    | none => hp) hp

theorem writeLoopH_hget (dstRef : ℕ) (f : Heap → ℕ → Option (ℕ × Pixel))
    (len : ℕ) (hp : Heap) (r : ℕ) (h : r ≠ dstRef) :
    hget (writeLoopH dstRef f len hp) r = hget hp r := by
  rw [writeLoopH]
  refine foldl_pres_of_step (fun hp' => hget hp' r = hget hp r) _ ?_ _ _ rfl
  intro hp' i hpres
  dsimp only
  cases hf : f hp' i with
  | none => simpa [hf] using hpres
  | some jp =>
    simp only [hf]
    rw [hget_hwrite_ne _ _ _ _ _ h]
    exact hpres

theorem writeLoopH_length (dstRef : ℕ) (f : Heap → ℕ → Option (ℕ × Pixel))
    (len : ℕ) (hp : Heap) :
    (writeLoopH dstRef f len hp).length = hp.length := by
  rw [writeLoopH]
  refine foldl_pres_of_step (fun hp' : Heap => hp'.length = hp.length) _ ?_ _ _ rfl
  intro hp' i hpres
  dsimp only
  cases hf : f hp' i with
  | none => simpa [hf] using hpres
  | some jp =>
    simp only [hf]
    rw [length_hwrite]
    exact hpres

/-- The frame property of claim C9 for one call: every reference that existed
before the call reads back unchanged afterwards, and the returned reference is
at or past the old heap end — freshly allocated, aliasing no pre-existing
buffer. -/
def FramesOk (hp : Heap) (out : Heap × ℕ) : Prop :=
  (∀ r < hp.length, hget out.1 r = hget hp r) ∧
  hp.length ≤ out.1.length ∧ hp.length ≤ out.2

/-- Shared shape of most per-pixel source functions: allocate
`result = new Uint8ClampedArray(data)`, then run one write loop into it. -/
def allocWriteH (hp : Heap) (dataRef : ℕ) (f : Heap → ℕ → Option (ℕ × Pixel))
    (len : ℕ) : Heap × ℕ :=
  let a := halloc hp (hget hp dataRef)
  (writeLoopH a.2 f len a.1, a.2)

theorem allocWriteH_frames (hp : Heap) (dataRef : ℕ)
    (f : Heap → ℕ → Option (ℕ × Pixel)) (len : ℕ) :
    FramesOk hp (allocWriteH hp dataRef f len) := by
  refine ⟨?_, ?_, le_refl _⟩
  · intro r hr
    show hget (writeLoopH hp.length f len (halloc hp (hget hp dataRef)).1) r = hget hp r
    rw [writeLoopH_hget _ _ _ _ r (by omega), hget_halloc hp _ r hr]
  · show hp.length ≤ (writeLoopH hp.length f len (halloc hp (hget hp dataRef)).1).length
    rw [writeLoopH_length, length_halloc]
    omega

/-- Per-pixel map shape shared by seven adjustments: fresh copy of `data`,
then one write per pixel computed from the input buffer. -/
def mapPixelsH (f : Pixel → Pixel) (hp : Heap) (dataRef w h : ℕ) : Heap × ℕ :=
  allocWriteH hp dataRef (fun hp i => some (i, f (hget hp dataRef i))) (w * h)

/-- Write-discipline `toGrayscale`. -/
def toGrayscaleH (hp : Heap) (dataRef w h : ℕ) : Heap × ℕ :=
  mapPixelsH grayPixel hp dataRef w h

/-- Write-discipline `adjustBrightness`. -/
def adjustBrightnessH (hp : Heap) (dataRef w h : ℕ) (amount : ℚ) : Heap × ℕ :=
  mapPixelsH (brightPixel amount) hp dataRef w h

/-- Write-discipline `adjustContrast`. -/
def adjustContrastH (hp : Heap) (dataRef w h : ℕ) (amount : ℚ) : Heap × ℕ :=
  mapPixelsH (contrastPixel (contrastFactor amount)) hp dataRef w h

/-- Write-discipline `adjustGamma` (the lookup table is a plain local array,
never aliased with the pixel buffers). -/
def adjustGammaH (powfn : ℚ → ℚ → ℚ) (hp : Heap) (dataRef w h : ℕ)
    (gamma : ℚ) : Heap × ℕ :=
  mapPixelsH (gammaPixel (gammaLut powfn gamma)) hp dataRef w h

/-- Write-discipline `invert`. -/
def invertH (hp : Heap) (dataRef w h : ℕ) : Heap × ℕ :=
  mapPixelsH invertPixel hp dataRef w h

/-- Write-discipline `mirrorHorizontal`: writes target the mirrored column. -/
def mirrorHorizontalH (hp : Heap) (dataRef w h : ℕ) : Heap × ℕ :=
  allocWriteH hp dataRef (fun hp i =>
    some ((i / w) * w + (w - 1 - i % w), hget hp dataRef i)) (w * h)

/-- Write-discipline private `boxBlur`: allocate `result` then `temp` (both
copies of `data`), horizontal pass into `temp`, vertical pass into `result`. -/
def boxBlurH (hp : Heap) (dataRef w h radius : ℕ) : Heap × ℕ :=
  let a := halloc hp (hget hp dataRef)
  let b := halloc a.1 (hget a.1 dataRef)
  let hp1 := writeLoopH b.2 (fun hp i =>
    some (i, boxBlurRowPixel w radius (hget hp dataRef) (i / w) (i % w))) (w * h) b.1
  let hp2 := writeLoopH a.2 (fun hp i =>
    some (i, boxBlurColPixel w h radius (hget hp b.2) (i / w) (i % w))) (w * h) hp1
  (hp2, a.2)

/-- Write-discipline `unsharpMask`: `result` allocated first, then the
blurred copy computed by `boxBlurH`, then one write loop into `result`. -/
def unsharpMaskH (hp : Heap) (dataRef w h : ℕ) (radius : ℕ) (amount thr : ℚ) :
    Heap × ℕ :=
  let a := halloc hp (hget hp dataRef)
  let bb := boxBlurH a.1 dataRef w h radius
  let amountFactor := amount / 100
  (writeLoopH a.2 (fun hp i =>
    let d := hget hp dataRef i
    let bl := hget hp bb.2 i
    some (i, ⟨unsharpChan amountFactor thr d.r bl.r, unsharpChan amountFactor thr d.g bl.g,
      unsharpChan amountFactor thr d.b bl.b, d.a⟩)) (w * h) bb.1, a.2)

/-- Write-discipline `edgeEnhance`: border pixels are never written. -/
def edgeEnhanceH (hp : Heap) (dataRef w h : ℕ) (strength : ℚ) : Heap × ℕ :=
  allocWriteH hp dataRef (fun hp i =>
    let y := i / w
    let x := i % w
    if 1 ≤ y ∧ y + 1 < h ∧ 1 ≤ x ∧ x + 1 < w then
      some (i, ⟨edgeEnhanceChan strength w (hget hp dataRef) Pixel.r y x,
        edgeEnhanceChan strength w (hget hp dataRef) Pixel.g y x,
        edgeEnhanceChan strength w (hget hp dataRef) Pixel.b y x,
        (hget hp dataRef i).a⟩)
    else none) (w * h)

/-- Write-discipline `denoise`: the border of width `radius` is never
written. -/
def denoiseH (hp : Heap) (dataRef w h : ℕ) (strength : ℚ) : Heap × ℕ :=
  let radius : ℕ := (max 1 ⌊strength / 20⌋).toNat
  let tv := strength * 2
  allocWriteH hp dataRef (fun hp i =>
    let y := i / w
    let x := i % w
    if radius ≤ y ∧ y + radius < h ∧ radius ≤ x ∧ x + radius < w then
      some (i, ⟨denoiseChan radius tv w (hget hp dataRef) Pixel.r y x,
        denoiseChan radius tv w (hget hp dataRef) Pixel.g y x,
        denoiseChan radius tv w (hget hp dataRef) Pixel.b y x,
        (hget hp dataRef i).a⟩)
    else none) (w * h)

/-- Write-discipline `autoAdjust`: the histogram scan only reads; when the
detected range is empty the copied buffer is returned without a write loop. -/
def autoAdjustH (hp : Heap) (dataRef w h : ℕ) : Heap × ℕ :=
  let a := halloc hp (hget hp dataRef)
  let img : Img := ⟨w, h, hget a.1 dataRef⟩
  let clipAmount : ℕ := (⌊(w * h : ℚ) * 0.005⌋).toNat
  let minLevel := autoMinLevel img clipAmount
  let maxLevel := autoMaxLevel img clipAmount
  let range : ℤ := (maxLevel : ℤ) - (minLevel : ℤ)
  if 0 < range then
    (writeLoopH a.2 (fun hp i =>
      some (i, levelsPixel (minLevel : ℚ) (range : ℚ) (hget hp dataRef i))) (w * h) a.1,
     a.2)
  else (a.1, a.2)

/-- Write-discipline `adjustLevels`: the full-range check short-circuits
before any write. -/
def adjustLevelsH (hp : Heap) (dataRef w h : ℕ) (blackPoint whitePoint : ℚ) :
    Heap × ℕ :=
  let a := halloc hp (hget hp dataRef)
  let bp : ℤ := max 0 (min 255 (roundJS blackPoint))
  let wp : ℤ := max 0 (min 255 (roundJS whitePoint))
  let minLevel := min bp wp
  let maxLevel := max bp wp
  let range : ℤ := max 1 (maxLevel - minLevel)
  if minLevel = 0 ∧ maxLevel = 255 then (a.1, a.2)
  else
    (writeLoopH a.2 (fun hp i =>
      some (i, levelsPixel (minLevel : ℚ) (range : ℚ) (hget hp dataRef i))) (w * h) a.1,
     a.2)

/-- Write-discipline `threshold`. -/
def thresholdH (hp : Heap) (dataRef w h : ℕ) (tv : ℚ) : Heap × ℕ :=
  mapPixelsH (thresholdPixel (max 0 (min 255 (roundJS tv)))) hp dataRef w h

/-- Write-discipline `colorCorrection`. -/
def colorCorrectionH (hp : Heap) (dataRef w h : ℕ)
    (shadowLift highlightCompress : ℚ) : Heap × ℕ :=
  mapPixelsH (colorCorrectPixel shadowLift highlightCompress) hp dataRef w h

/-- Write-discipline `sketchEffect`: grayscale, invert and blur each allocate
their own buffers; `result = new Uint8ClampedArray(data)` is allocated last
and is the only write target of the dodge loop. -/
def sketchEffectH (hp : Heap) (dataRef w h : ℕ) : Heap × ℕ :=
  let g := toGrayscaleH hp dataRef w h
  let inv := invertH g.1 g.2 w h
  let bl := boxBlurH inv.1 inv.2 w h 5
  let a := halloc bl.1 (hget bl.1 dataRef)
  (writeLoopH a.2 (fun hp i =>
    let value := sketchValue (hget hp g.2 i).r (hget hp bl.2 i).r
    some (i, ⟨clampedByte value, clampedByte value, clampedByte value,
      (hget hp dataRef i).a⟩)) (w * h) a.1, a.2)

/-- Shared write-discipline shape of the seven error-diffusion algorithms:
the `Float32Array` accumulator is a local value that cannot alias the byte
buffers, every store targets the freshly allocated `result`. -/
def diffuseDitherH (dist : ℕ → ℕ → ℚ → (ℕ → ℚ) → ℕ → ℚ) (hp : Heap)
    (dataRef w h : ℕ) : Heap × ℕ :=
  let a := halloc hp (hget hp dataRef)
  let errors0 : ℕ → ℚ := fun i => if i < w * h then getGray (hget a.1 dataRef i) else 0
  let fin := scanRowMajor w h (fun (s : Heap × (ℕ → ℚ)) y x =>
    let idx := y * w + x
    let oldPixel := s.2 idx
    let newPixel : ℕ := if oldPixel < 128 then 0 else 255
    let quantError : ℚ := oldPixel - (newPixel : ℚ)
    (hwrite s.1 a.2 idx ⟨newPixel, newPixel, newPixel, (hget s.1 dataRef idx).a⟩,
     dist y x quantError s.2)) (a.1, errors0)
  (fin.1, a.2)

/-- Write-discipline `floydSteinberg`. -/
def floydSteinbergH (hp : Heap) (dataRef w h : ℕ) : Heap × ℕ :=
  diffuseDitherH (fsDistribute w h) hp dataRef w h

/-- Write-discipline `jarvisJudiceNinke`. -/
def jarvisJudiceNinkeH (hp : Heap) (dataRef w h : ℕ) : Heap × ℕ :=
  diffuseDitherH
    (kernelDistribute [[0, 0, 0, 7, 5], [3, 5, 7, 5, 3], [1, 3, 5, 3, 1]] 48 3 w h)
    hp dataRef w h

/-- Write-discipline `stucki`. -/
def stuckiH (hp : Heap) (dataRef w h : ℕ) : Heap × ℕ :=
  diffuseDitherH
    (kernelDistribute [[0, 0, 0, 8, 4], [2, 4, 8, 4, 2], [1, 2, 4, 2, 1]] 42 3 w h)
    hp dataRef w h

/-- Write-discipline `atkinson`. -/
def atkinsonH (hp : Heap) (dataRef w h : ℕ) : Heap × ℕ :=
  diffuseDitherH (atkinsonDistribute w h) hp dataRef w h

/-- Write-discipline `sierra`. -/
def sierraH (hp : Heap) (dataRef w h : ℕ) : Heap × ℕ :=
  diffuseDitherH
    (kernelDistribute [[0, 0, 0, 5, 3], [2, 4, 5, 4, 2], [0, 2, 3, 2, 0]] 32 3 w h)
    hp dataRef w h

/-- Write-discipline `sierraTwoRow`. -/
def sierraTwoRowH (hp : Heap) (dataRef w h : ℕ) : Heap × ℕ :=
  diffuseDitherH (kernelDistribute [[0, 0, 0, 4, 3], [1, 2, 3, 2, 1]] 16 2 w h)
    hp dataRef w h

/-- Write-discipline `burkes`. -/
def burkesH (hp : Heap) (dataRef w h : ℕ) : Heap × ℕ :=
  diffuseDitherH (burkesDistribute w h) hp dataRef w h

/-- Shared write-discipline shape of the two Bayer variants. -/
def bayerDitherH (matrix : List (List ℚ)) (size : ℕ) (hp : Heap)
    (dataRef w h : ℕ) : Heap × ℕ :=
  allocWriteH hp dataRef (fun hp i =>
    let gray := getGray (hget hp dataRef i)
    let t := (matrix.getD (i / w % size) []).getD (i % w % size) 0
    let v : ℕ := if t < gray then 255 else 0
    some (i, ⟨v, v, v, (hget hp dataRef i).a⟩)) (w * h)

/-- Write-discipline `bayerOrdered`. -/
def bayerOrderedH (hp : Heap) (dataRef w h : ℕ) : Heap × ℕ :=
  bayerDitherH bayerMatrix8 8 hp dataRef w h

/-- Write-discipline `bayerOrdered4x4`. -/
def bayerOrdered4x4H (hp : Heap) (dataRef w h : ℕ) : Heap × ℕ :=
  bayerDitherH bayerMatrix4 4 hp dataRef w h

theorem halloc_snd (hp : Heap) (arr : ℕ → Pixel) : (halloc hp arr).2 = hp.length := rfl

theorem scan_heapfst_hget {σ2 : Type} (w h : ℕ) (r : ℕ)
    (step : (Heap × σ2) → ℕ → ℕ → Heap × σ2)
    (hstep : ∀ s y x, hget (step s y x).1 r = hget s.1 r)
    (init : Heap × σ2) :
    hget ((scanRowMajor w h step init).1) r = hget init.1 r := by
  refine scanRowMajor_pres_of_step
    (fun s : Heap × σ2 => hget s.1 r = hget init.1 r) w h _ ?_ _ rfl
  intro s y x hs
  rw [hstep s y x]
  exact hs

theorem scan_heapfst_length {σ2 : Type} (w h : ℕ)
    (step : (Heap × σ2) → ℕ → ℕ → Heap × σ2)
    (hstep : ∀ s y x, (step s y x).1.length = s.1.length)
    (init : Heap × σ2) :
    ((scanRowMajor w h step init).1).length = init.1.length := by
  refine scanRowMajor_pres_of_step
    (fun s : Heap × σ2 => s.1.length = init.1.length) w h _ ?_ _ rfl
  intro s y x hs
  rw [hstep s y x]
  exact hs

theorem boxBlurH_frames (hp : Heap) (dataRef w h radius : ℕ) :
    FramesOk hp (boxBlurH hp dataRef w h radius) := by
  refine ⟨?_, ?_, le_refl _⟩
  · intro r hr
    simp only [boxBlurH, halloc_snd]
    rw [writeLoopH_hget _ _ _ _ r (Nat.ne_of_lt hr)]
    rw [writeLoopH_hget _ _ _ _ r
      (show r ≠ (halloc hp (hget hp dataRef)).1.length by rw [length_halloc]; omega)]
    rw [hget_halloc _ _ r (by rw [length_halloc]; omega), hget_halloc _ _ r hr]
  · simp only [boxBlurH, halloc_snd]
    rw [writeLoopH_length, writeLoopH_length, length_halloc, length_halloc]
    omega

theorem unsharpMaskH_frames (hp : Heap) (dataRef w h radius : ℕ) (amount thr : ℚ) :
    FramesOk hp (unsharpMaskH hp dataRef w h radius amount thr) := by
  have hbb := boxBlurH_frames (halloc hp (hget hp dataRef)).1 dataRef w h radius
  have hlen : (halloc hp (hget hp dataRef)).1.length = hp.length + 1 := length_halloc _ _
  refine ⟨?_, ?_, le_refl _⟩
  · intro r hr
    simp only [unsharpMaskH, halloc_snd]
    rw [writeLoopH_hget _ _ _ _ r (Nat.ne_of_lt hr)]
    rw [hbb.1 r (by omega), hget_halloc _ _ r hr]
  · simp only [unsharpMaskH, halloc_snd]
    rw [writeLoopH_length]
    have := hbb.2.1
    omega

theorem sketchEffectH_frames (hp : Heap) (dataRef w h : ℕ) :
    FramesOk hp (sketchEffectH hp dataRef w h) := by
  have hg : FramesOk hp (toGrayscaleH hp dataRef w h) := allocWriteH_frames _ _ _ _
  have hinv : FramesOk (toGrayscaleH hp dataRef w h).1
      (invertH (toGrayscaleH hp dataRef w h).1 (toGrayscaleH hp dataRef w h).2 w h) :=
    allocWriteH_frames _ _ _ _
  have hbl := boxBlurH_frames
    (invertH (toGrayscaleH hp dataRef w h).1 (toGrayscaleH hp dataRef w h).2 w h).1
    (invertH (toGrayscaleH hp dataRef w h).1 (toGrayscaleH hp dataRef w h).2 w h).2 w h 5
  have hlen1 := hg.2.1
  have hlen2 := hinv.2.1
  have hlen3 := hbl.2.1
  refine ⟨?_, ?_, ?_⟩
  · intro r hr
    simp only [sketchEffectH, halloc_snd]
    rw [writeLoopH_hget _ _ _ _ r (by omega)]
    rw [hget_halloc _ _ r (by omega)]
    rw [hbl.1 r (by omega), hinv.1 r (by omega), hg.1 r hr]
  · simp only [sketchEffectH, halloc_snd]
    rw [writeLoopH_length, length_halloc]
    omega
  · simp only [sketchEffectH, halloc_snd]
    omega

theorem diffuseDitherH_frames (dist : ℕ → ℕ → ℚ → (ℕ → ℚ) → ℕ → ℚ)
    (hp : Heap) (dataRef w h : ℕ) :
    FramesOk hp (diffuseDitherH dist hp dataRef w h) := by
  refine ⟨?_, ?_, le_refl _⟩
  · intro r hr
    simp only [diffuseDitherH, halloc_snd]
    rw [scan_heapfst_hget]
    · exact hget_halloc hp _ r hr
    · intro s y x
      dsimp only
      exact hget_hwrite_ne _ _ _ _ r (Nat.ne_of_lt hr)
  · simp only [diffuseDitherH, halloc_snd]
    rw [scan_heapfst_length]
    · rw [length_halloc]
      omega
    · intro s y x
      dsimp only
      exact length_hwrite _ _ _ _

theorem autoAdjustH_frames (hp : Heap) (dataRef w h : ℕ) :
    FramesOk hp (autoAdjustH hp dataRef w h) := by
  simp only [autoAdjustH, halloc_snd]
  split_ifs with hcond
  · refine ⟨?_, ?_, le_refl _⟩
    · intro r hr
      dsimp only
      rw [writeLoopH_hget _ _ _ _ r (Nat.ne_of_lt hr), hget_halloc _ _ r hr]
    · dsimp only
      rw [writeLoopH_length, length_halloc]
      omega
  · refine ⟨?_, ?_, le_refl _⟩
    · intro r hr
      dsimp only
      exact hget_halloc _ _ r hr
    · dsimp only
      rw [length_halloc]
      omega

theorem adjustLevelsH_frames (hp : Heap) (dataRef w h : ℕ)
    (blackPoint whitePoint : ℚ) :
    FramesOk hp (adjustLevelsH hp dataRef w h blackPoint whitePoint) := by
  simp only [adjustLevelsH, halloc_snd]
  split_ifs with hcond
  · refine ⟨?_, ?_, le_refl _⟩
    · intro r hr
      dsimp only
      exact hget_halloc _ _ r hr
    · dsimp only
      rw [length_halloc]
      omega
  · refine ⟨?_, ?_, le_refl _⟩
    · intro r hr
      dsimp only
      rw [writeLoopH_hget _ _ _ _ r (Nat.ne_of_lt hr), hget_halloc _ _ r hr]
    · dsimp only
      rw [writeLoopH_length, length_halloc]
      omega

/-- C9: every adjustment and dithering function of the source, in the
write-discipline view, leaves every pre-existing buffer — in particular its
input's pixel data — byte-for-byte unchanged, and returns a freshly allocated
reference at or past the old heap end, so the output never aliases the
input's backing storage. -/
theorem adjustments_frame_effects :
    (∀ hp dataRef w h, FramesOk hp (toGrayscaleH hp dataRef w h)) ∧
    (∀ hp dataRef w h amount, FramesOk hp (adjustBrightnessH hp dataRef w h amount)) ∧
    (∀ hp dataRef w h amount, FramesOk hp (adjustContrastH hp dataRef w h amount)) ∧
    (∀ powfn hp dataRef w h gamma,
      FramesOk hp (adjustGammaH powfn hp dataRef w h gamma)) ∧
    (∀ hp dataRef w h, FramesOk hp (invertH hp dataRef w h)) ∧
    (∀ hp dataRef w h, FramesOk hp (mirrorHorizontalH hp dataRef w h)) ∧
    (∀ hp dataRef w h radius amount thr,
      FramesOk hp (unsharpMaskH hp dataRef w h radius amount thr)) ∧
    (∀ hp dataRef w h strength, FramesOk hp (edgeEnhanceH hp dataRef w h strength)) ∧
    (∀ hp dataRef w h strength, FramesOk hp (denoiseH hp dataRef w h strength)) ∧
    (∀ hp dataRef w h, FramesOk hp (autoAdjustH hp dataRef w h)) ∧
    (∀ hp dataRef w h bp wp, FramesOk hp (adjustLevelsH hp dataRef w h bp wp)) ∧
    (∀ hp dataRef w h tv, FramesOk hp (thresholdH hp dataRef w h tv)) ∧
    (∀ hp dataRef w h sl hc, FramesOk hp (colorCorrectionH hp dataRef w h sl hc)) ∧
    (∀ hp dataRef w h, FramesOk hp (sketchEffectH hp dataRef w h)) ∧
    (∀ hp dataRef w h, FramesOk hp (floydSteinbergH hp dataRef w h)) ∧
    (∀ hp dataRef w h, FramesOk hp (jarvisJudiceNinkeH hp dataRef w h)) ∧
    (∀ hp dataRef w h, FramesOk hp (stuckiH hp dataRef w h)) ∧
    (∀ hp dataRef w h, FramesOk hp (atkinsonH hp dataRef w h)) ∧
    (∀ hp dataRef w h, FramesOk hp (sierraH hp dataRef w h)) ∧
    (∀ hp dataRef w h, FramesOk hp (sierraTwoRowH hp dataRef w h)) ∧
    (∀ hp dataRef w h, FramesOk hp (burkesH hp dataRef w h)) ∧
    (∀ hp dataRef w h, FramesOk hp (bayerOrderedH hp dataRef w h)) ∧
    (∀ hp dataRef w h, FramesOk hp (bayerOrdered4x4H hp dataRef w h)) :=
  ⟨fun hp d w h => allocWriteH_frames hp d _ (w * h),
   fun hp d w h _ => allocWriteH_frames hp d _ (w * h),
   fun hp d w h _ => allocWriteH_frames hp d _ (w * h),
   fun _ hp d w h _ => allocWriteH_frames hp d _ (w * h),
   fun hp d w h => allocWriteH_frames hp d _ (w * h),
   fun hp d w h => allocWriteH_frames hp d _ (w * h),
   fun hp d w h radius amount thr => unsharpMaskH_frames hp d w h radius amount thr,
   fun hp d w h _ => allocWriteH_frames hp d _ (w * h),
   fun hp d w h _ => allocWriteH_frames hp d _ (w * h),
   fun hp d w h => autoAdjustH_frames hp d w h,
   fun hp d w h bp wp => adjustLevelsH_frames hp d w h bp wp,
   fun hp d w h _ => allocWriteH_frames hp d _ (w * h),
   fun hp d w h _ _ => allocWriteH_frames hp d _ (w * h),
   fun hp d w h => sketchEffectH_frames hp d w h,
   fun hp d w h => diffuseDitherH_frames _ hp d w h,
   fun hp d w h => diffuseDitherH_frames _ hp d w h,
   fun hp d w h => diffuseDitherH_frames _ hp d w h,
   fun hp d w h => diffuseDitherH_frames _ hp d w h,
   fun hp d w h => diffuseDitherH_frames _ hp d w h,
   fun hp d w h => diffuseDitherH_frames _ hp d w h,
   fun hp d w h => diffuseDitherH_frames _ hp d w h,
   fun hp d w h => allocWriteH_frames hp d _ (w * h),
   fun hp d w h => allocWriteH_frames hp d _ (w * h)⟩

theorem adjustments_frame_effects_witness :
    hget (toGrayscaleH [demoImg.pix] 0 1 1).1 0 = hget [demoImg.pix] 0 ∧
    [demoImg.pix].length ≤ (toGrayscaleH [demoImg.pix] 0 1 1).2 :=
  ⟨(adjustments_frame_effects.1 [demoImg.pix] 0 1 1).1 0 (by simp),
   (adjustments_frame_effects.1 [demoImg.pix] 0 1 1).2.2⟩
